import Mathlib

/-!
# Filesystem helpers of the startup script generator

A verification development for `src/startupscriptgenerator/common/fsvalidation.go`:
`PathExists`, `FileExists`, `GetValidatedFullPath`, `WriteScript`, `AddPermission`
and `ParseCommandAndAddExecutionPermission`.

The six functions are thin wrappers around calls into the Go standard library
(`os.Stat`, `os.IsNotExist`, `os.Chmod`, `ioutil.WriteFile`, `filepath.Abs`,
`filepath.Join`, `fmt.Println`).  The first part of the file is a model of those
calls on a POSIX host; the second part embeds the six functions line by line over
that model; the third part states and proves their properties.

Scope of the host model.  A host is a table of entries keyed by absolute component
lists, the working directory and credentials of the calling process, its umask and
what it has printed.  Path lookup walks the components as the kernel does: every
directory on the way must exist, be a directory (`ENOTDIR` otherwise) and grant
search permission (`EACCES` otherwise), and a missing name is `ENOENT`.  Symbolic
links, hard links, time stamps and input/output errors are not modelled.  A write
can fail in two places: when the file is opened, which leaves the host as it was,
or while the data are written to the file that has just been created or truncated,
when the filesystem has no room for all of them (`ENOSPC`); sizes are counted in
characters.  A write leaves the mode bits of an existing file alone.
-/

namespace Oryx

/-! ## The host: entries, credentials, path lookup -/

/-- The error numbers the modelled calls can report.  `ENODEVICE` stands for
the POSIX error number `ENXIO` ("no such device or address"). -/
inductive Errno
  | ENOENT
  | ENOTDIR
  | EACCES
  | EPERM
  | EISDIR
  | ENODEVICE
  | ENOSPC
  deriving DecidableEq, Repr

/-- The type of an entry.  `device` stands for a character device that accepts and
discards what is written to it (the null device); `socket` for a socket file. -/
inductive Kind
  | regular
  | directory
  | device
  | socket
  deriving DecidableEq, Repr

/-- An entry of the filesystem: its type, its twelve mode bits (`rwxrwxrwx` plus
set-user-id 04000, set-group-id 02000 and sticky 01000), its owner and group, and
its data. -/
structure Inode where
  kind : Kind
  perm : Nat
  uid : Nat
  gid : Nat
  content : String
  deriving DecidableEq, Repr

/-- The state the functions run against: the entries (the key `[]` is the root
directory, `["app", "run.sh"]` is `/app/run.sh`), the working directory, the
effective user and group of the process with its supplementary groups, its umask,
the lines written to standard output so far, and the room left on the filesystem
for file data. -/
structure Host where
  nodes : List String → Option Inode
  cwd : List String
  euid : Nat
  egid : Nat
  groups : List Nat
  umask : Nat
  stdout : List String
  free : Nat

/-- Replace (or add) the entry stored under one key; every other key is untouched. -/
def Host.setNode (h : Host) (k : List String) (n : Inode) : Host :=
  { h with nodes := fun q => if q = k then some n else h.nodes q }

/-- The same host with another amount of room left for file data. -/
def Host.withFree (h : Host) (room : Nat) : Host :=
  { h with free := room }

/-- Whether the process belongs to the group of an entry. -/
def inGroup (h : Host) (n : Inode) : Bool :=
  decide (h.egid = n.gid) || decide (n.gid ∈ h.groups)

/-- The weight of the permission class that applies to the process: 64 for the
owner bits, 8 for the group bits, 1 for the bits of everybody else. -/
def classShift (h : Host) (n : Inode) : Nat :=
  if h.euid = n.uid then 64 else if inGroup h n then 8 else 1

/-- Discretionary access check.  `want` is 4 to read, 2 to write, 1 to search a
directory.  The superuser passes every check made in this model. -/
def permits (h : Host) (n : Inode) (want : Nat) : Bool :=
  decide (h.euid = 0) || decide (n.perm / (classShift h n * want) % 2 = 1)

/-- Split a path at every slash: `"/a/b"` gives `["", "a", "b"]`, `"a/"` gives
`["a", ""]`. -/
def splitSlash : List Char → List (List Char)
  | [] => [[]]
  | c :: cs =>
    if c = '/' then [] :: splitSlash cs
    else
      match splitSlash cs with
      | [] => [[c]]
      | x :: xs => (c :: x) :: xs

/-- The components of a path, empty ones included. -/
def components (path : String) : List String :=
  (splitSlash path.data).map String.mk

/-- Go's `filepath.IsAbs` on a POSIX host: the path starts with a slash. -/
def IsAbs (path : String) : Bool :=
  match path.data with
  | [] => false
  | c :: _ => decide (c = '/')

/-- One step of path lookup: from the directory `cur`, follow the component `c`.
The current entry has to be a directory; following a name, `.` or `..` needs search
permission on it; an empty component (repeated or trailing slash) only needs the
directory. -/
def step (h : Host) (cur : List String) (c : String) : Except Errno (List String) :=
  match h.nodes cur with
  | none => .error .ENOENT
  | some d =>
    if d.kind ≠ .directory then .error .ENOTDIR
    else if c = "" then .ok cur
    else if !permits h d 1 then .error .EACCES
    else if c = "." then .ok cur
    else if c = ".." then .ok cur.dropLast
    else
      match h.nodes (cur ++ [c]) with
      | none => .error .ENOENT
      | some _ => .ok (cur ++ [c])

/-- Follow a list of components from a starting directory. -/
def walk (h : Host) : List String → List String → Except Errno (List String)
  | cur, [] => .ok cur
  | cur, c :: cs =>
    match step h cur c with
    | .error e => .error e
    | .ok next => walk h next cs

/-- Where lookup of a path starts: the root for an absolute path, the working
directory otherwise. -/
def startDir (h : Host) (path : String) : List String :=
  if IsAbs path then [] else h.cwd

/-- Path lookup as the kernel performs it for `stat`, `chmod` and `open`: the key
and the entry a path names, or the error number of the failed lookup.  The empty
path is `ENOENT`. -/
def lookup (h : Host) (path : String) : Except Errno (List String × Inode) :=
  if path = "" then .error .ENOENT
  else
    match walk h (startDir h path) (components path) with
    | .error e => .error e
    | .ok k =>
      match h.nodes k with
      | none => .error .ENOENT
      | some n => .ok (k, n)

/-- The same host seen by the superuser. -/
def Host.privileged (h : Host) : Host :=
  { h with euid := 0 }

/-- The entry that is at a path, whoever asks: what lookup finds when no permission
check can stop it.  `none` when no entry exists at the path. -/
def entryAt (h : Host) (path : String) : Option Inode :=
  match lookup h.privileged path with
  | .error _ => none
  | .ok (_, n) => some n

/-! ## The standard-library calls -/

/-- What `os.Stat` reports about an entry. -/
structure FileInfo where
  kind : Kind
  perm : Nat
  deriving DecidableEq, Repr

/-- Go's `FileInfo.IsDir`. -/
def FileInfo.IsDir (fi : FileInfo) : Bool :=
  decide (fi.kind = .directory)

/-- Go's `os.Stat`: the description of the entry the path names, or the error of
the lookup.  It does not change the host. -/
def Stat (h : Host) (name : String) : Except Errno FileInfo :=
  match lookup h name with
  | .error e => .error e
  | .ok (_, n) => .ok ⟨n.kind, n.perm⟩

/-- The `err` half of a Go result pair: `nil` is `none`. -/
def errOf {α : Type} : Except Errno α → Option Errno
  | .error e => some e
  | .ok _ => none

/-- Go's `os.IsNotExist`: true for the error number `ENOENT` only; false for `nil`
and for every other error number. -/
def IsNotExist (err : Option Errno) : Bool :=
  decide (err = some .ENOENT)

/-- Go's conversion `os.FileMode(permission)` of an `int` to the 32-bit mode type. -/
def FileMode (permission : Int) : Nat :=
  (permission % 4294967296).toNat

/-- Go's `syscallMode`: the mode bits handed to the kernel for a `FileMode`.  The
nine low bits are the permission bits; set-user-id, set-group-id and sticky are
bits 23, 22 and 20 of a `FileMode`, every other bit is dropped. -/
def syscallMode (m : Nat) : Nat :=
  m % 512
    + (if m / 8388608 % 2 = 1 then 2048 else 0)
    + (if m / 4194304 % 2 = 1 then 1024 else 0)
    + (if m / 1048576 % 2 = 1 then 512 else 0)

/-- The mode bits `chmod` stores: the requested ones, with set-group-id turned off
when an unprivileged caller is not in the group of the entry. -/
def chmodBits (h : Host) (n : Inode) (bits : Nat) : Nat :=
  if h.euid ≠ 0 ∧ inGroup h n = false ∧ bits / 1024 % 2 = 1 then bits - 1024 else bits

/-- Go's `os.Chmod`: look the path up, and when the caller owns the entry or is the
superuser replace its mode bits.  A failed lookup reports its error, a caller who
may not change the mode gets `EPERM`; in both cases the host is as before. -/
def Chmod (h : Host) (name : String) (mode : Nat) : Host × Option Errno :=
  match lookup h name with
  | .error e => (h, some e)
  | .ok (k, n) =>
    if h.euid ≠ 0 ∧ h.euid ≠ n.uid then (h, some .EPERM)
    else (h.setNode k { n with perm := chmodBits h n (syscallMode mode) }, none)

/-- Writing the data into the regular file `n` stored under `k`, which has just been
opened and is empty, with `room` to spare on the filesystem: all the data when they
fit; otherwise the part that fits, and the error `ENOSPC`. -/
def store (h : Host) (k : List String) (n : Inode) (data : String) (room : Nat) :
    Host × Option Errno :=
  if data.length ≤ room then
    ((h.setNode k { n with content := data }).withFree (room - data.length), none)
  else
    ((h.setNode k { n with content := String.mk (data.data.take room) }).withFree 0,
      some .ENOSPC)

/-- Opening an existing entry for writing with truncation, and writing the data.
Truncation of a regular file releases the room its old data took. -/
def openTrunc (h : Host) (k : List String) (n : Inode) (data : String) : Host × Option Errno :=
  match n.kind with
  | .directory => (h, some .EISDIR)
  | .socket => (h, some .ENODEVICE)
  | .device => if permits h n 2 then (h, none) else (h, some .EACCES)
  | .regular =>
    if permits h n 2 then store h k n data (h.free + n.content.length)
    else (h, some .EACCES)

/-- Creating a regular file named `c` in the directory `dir` and writing the data:
needs write permission on the directory; the new file belongs to the caller, its
mode is the requested one with the bits of the umask removed, and it is empty until
the data are written. -/
def create (h : Host) (dir : List String) (c : String) (data : String) (bits : Nat) :
    Host × Option Errno :=
  match h.nodes dir with
  | none => (h, some .ENOENT)
  | some d =>
    if d.kind ≠ .directory then (h, some .ENOTDIR)
    else if !permits h d 2 then (h, some .EACCES)
    else
      store h (dir ++ [c]) ⟨.regular, bits - (bits &&& h.umask), h.euid, h.egid, ""⟩ data h.free

/-- Go's `ioutil.WriteFile(name, data, perm)`: open with
`O_WRONLY|O_CREATE|O_TRUNC`, then write.  "If the file does not exist, WriteFile
creates it with permissions perm (before umask); otherwise WriteFile truncates it
before writing, without changing permissions."  An error of the open leaves the
host as it was; an error of the write leaves the created or truncated file with
the part of the data that was written. -/
def WriteFile (h : Host) (name : String) (data : String) (mode : Nat) : Host × Option Errno :=
  if name = "" then (h, some .ENOENT)
  else
    match walk h (startDir h name) (components name).dropLast with
    | .error e => (h, some e)
    | .ok dir =>
      let c := (components name).getLastD ""
      match step h dir c with
      | .ok k =>
        match h.nodes k with
        | none => (h, some .ENOENT)
        | some n => openTrunc h k n data
      | .error .ENOENT => create h dir c data (syscallMode mode)
      | .error e => (h, some e)

/-- Go's `os.ReadFile`: the data of a regular file the caller may read. -/
def ReadFile (h : Host) (name : String) : Except Errno String :=
  match lookup h name with
  | .error e => .error e
  | .ok (_, n) =>
    match n.kind with
    | .directory => .error .EISDIR
    | .socket => .error .ENODEVICE
    | .device => if permits h n 4 then .ok "" else .error .EACCES
    | .regular => if permits h n 4 then .ok n.content else .error .EACCES

/-- Go's `fmt.Println` of one string: one more line on standard output. -/
def Println (h : Host) (line : String) : Host :=
  { h with stdout := h.stdout ++ [line] }

/-- Go's `os.Getwd`: the working directory as an absolute path; `ENOENT` when the
directory is gone. -/
def Getwd (h : Host) : Except Errno String :=
  match h.nodes h.cwd with
  | none => .error .ENOENT
  | some d =>
    if d.kind = .directory then .ok ("/" ++ "/".intercalate h.cwd) else .error .ENOENT

/-- One component of `filepath.Clean`, on the stack of components kept so far
(innermost first): empty and `.` components are dropped, `..` removes the component
before it, is dropped at the root, and is kept at the start of a relative path. -/
def cleanStep (rooted : Bool) (out : List String) (c : String) : List String :=
  if c = "" ∨ c = "." then out
  else if c = ".." then
    match out with
    | [] => if rooted then [] else [".."]
    | top :: rest => if top = ".." then ".." :: top :: rest else rest
  else c :: out

/-- Go's `filepath.Clean` on a POSIX host: the shortest path equivalent to the
given one by purely lexical processing. -/
def Clean (path : String) : String :=
  if path = "" then "."
  else
    let body := "/".intercalate ((components path).foldl (cleanStep (IsAbs path)) []).reverse
    if IsAbs path then "/" ++ body
    else if body = "" then "." else body

/-- Go's `filepath.Join`: leading empty elements are ignored, the rest is joined
with slashes and cleaned; the result is empty when every element is. -/
def Join : List String → String
  | [] => ""
  | e :: es => if e ≠ "" then Clean ("/".intercalate (e :: es)) else Join es

/-- Go's `filepath.Abs` on a POSIX host: an absolute path is cleaned; a relative
one is joined to the working directory, and the call fails when that cannot be
determined. -/
def Abs (h : Host) (path : String) : Except Errno String :=
  if IsAbs path then .ok (Clean path)
  else
    match Getwd h with
    | .error e => .error e
    | .ok wd => .ok (Join [wd, path])

/-! ## The functions of `fsvalidation.go` -/

/-- What a Go `panic` was called with: an error value or a message. -/
inductive PanicValue
  | err (e : Errno)
  | msg (s : String)
  deriving DecidableEq, Repr

/-- `PathExists`: `_, err := os.Stat(path); return !os.IsNotExist(err)`. -/
def PathExists (h : Host) (path : String) : Bool :=
  !IsNotExist (errOf (Stat h path))

/-- `FileExists`: false when `os.Stat` fails, otherwise `!fi.IsDir()`. -/
def FileExists (h : Host) (path : String) : Bool :=
  match Stat h path with
  | .error _ => false
  | .ok fi => !fi.IsDir

/-- `GetValidatedFullPath`: panic with the error of `filepath.Abs`; panic with a
message when `os.Stat` of the absolute path reports that it does not exist;
otherwise return the absolute path. -/
def GetValidatedFullPath (h : Host) (filePath : String) : Except PanicValue String :=
  match Abs h filePath with
  | .error e => .error (.err e)
  | .ok fullAppPath =>
    if IsNotExist (errOf (Stat h fullAppPath)) then
      .error (.msg ("Path '" ++ fullAppPath ++ "' does not exist."))
    else .ok fullAppPath

/-- `WriteScript`: print the destination, then `ioutil.WriteFile(filePath,
[]byte(command), 0755)`; the error the write returns is dropped. -/
def WriteScript (h : Host) (filePath : String) (command : String) : Host :=
  (WriteFile (Println h ("Writing output script to '" ++ filePath ++ "'")) filePath command 493).1

/-- `AddPermission`: `os.Chmod(filePath, os.FileMode(permission))`; false when it
returns an error, true otherwise. -/
def AddPermission (h : Host) (filePath : String) (permission : Int) : Host × Bool :=
  match Chmod h filePath (FileMode permission) with
  | (h1, some _) => (h1, false)
  | (h1, none) => (h1, true)

/-- `ParseCommandAndAddExecutionPermission`: panic with the error of
`filepath.Abs(filepath.Join(sourcePath, commandString))`; otherwise
`AddPermission(absoluteFilePath, 0755)` when `FileExists(absoluteFilePath)`, and
false when not. -/
def ParseCommandAndAddExecutionPermission (h : Host) (commandString : String)
    (sourcePath : String) : Except PanicValue (Host × Bool) :=
  match Abs h (Join [sourcePath, commandString]) with
  | .error e => .error (.err e)
  | .ok absoluteFilePath =>
    if FileExists h absoluteFilePath then .ok (AddPermission h absoluteFilePath 493)
    else .ok (h, false)

/-! ## Relations between hosts used in the proofs -/

/-- Every entry of `h` is still there in `h2` with the same type, and every directory
of `h` admits the caller in `h2` exactly as it did in `h`. -/
def keepsDirs (h h2 : Host) : Prop :=
  ∀ q d, h.nodes q = some d →
    ∃ d2, h2.nodes q = some d2 ∧ d2.kind = d.kind ∧
      (d.kind = .directory → permits h2 d2 1 = permits h d 1)

/-! ## A concrete host for the examples -/

/-- The entries of the example host: `/app` with the script `run.sh` (mode 0644)
owned by user 1000, `/etc/passwd` owned by the superuser, the null device, a socket
file, and a directory `/vault` that only the superuser may search, with a script
in it. -/
def sampleNodes (k : List String) : Option Inode :=
  if k = [] then some ⟨.directory, 493, 0, 0, ""⟩
  else if k = ["app"] then some ⟨.directory, 493, 1000, 1000, ""⟩
  else if k = ["app", "run.sh"] then some ⟨.regular, 420, 1000, 1000, "echo hi"⟩
  else if k = ["etc"] then some ⟨.directory, 493, 0, 0, ""⟩
  else if k = ["etc", "passwd"] then some ⟨.regular, 420, 0, 0, "root:x:0:0"⟩
  else if k = ["dev"] then some ⟨.directory, 493, 0, 0, ""⟩
  else if k = ["dev", "null"] then some ⟨.device, 438, 0, 0, ""⟩
  else if k = ["run"] then some ⟨.directory, 493, 0, 0, ""⟩
  else if k = ["run", "app.sock"] then some ⟨.socket, 432, 1000, 1000, ""⟩
  else if k = ["vault"] then some ⟨.directory, 448, 0, 0, ""⟩
  else if k = ["vault", "key.sh"] then some ⟨.regular, 493, 1000, 1000, "exit 0"⟩
  else none

/-- The example host: user 1000 working in `/app` with umask 022, and room for 4096
characters on the filesystem. -/
def sampleHost : Host :=
  { nodes := sampleNodes
    cwd := ["app"]
    euid := 1000
    egid := 1000
    groups := []
    umask := 18
    stdout := []
    free := 4096 }

/-- Execute permission for the owner, the group and everybody else. -/
def executableByAll (perm : Nat) : Bool :=
  decide (perm / 64 % 2 = 1) && decide (perm / 8 % 2 = 1) && decide (perm % 2 = 1)

/-- Execute permission for at least one of owner, group and everybody else. -/
def executableByAny (perm : Nat) : Bool :=
  decide (perm / 64 % 2 = 1) || decide (perm / 8 % 2 = 1) || decide (perm % 2 = 1)

/-- The example host with the umask 077. -/
def strictHost : Host :=
  { sampleHost with umask := 63 }

/-- The example host for a process whose working directory has been removed. -/
def orphanHost : Host :=
  { sampleHost with cwd := ["gone"] }

/-- The example host with no room left on the filesystem. -/
def fullHost : Host :=
  { sampleHost with free := 0 }

/-! ## Path lookup: what the superuser sees -/

theorem permits_privileged (h : Host) (n : Inode) (want : Nat) :
    permits h.privileged n want = true := by
  simp [permits, Host.privileged]

theorem step_privileged (h : Host) (cur : List String) (c : String)
    (hne : step h cur c ≠ .error .EACCES) :
    step h.privileged cur c = step h cur c := by
  unfold step at hne ⊢
  have hn : h.privileged.nodes = h.nodes := rfl
  rw [hn]
  cases hcur : h.nodes cur with
  | none => rfl
  | some d =>
    simp only [hcur] at hne ⊢
    by_cases hk : d.kind ≠ .directory
    · simp [hk]
    · by_cases hc : c = ""
      · simp [hk, hc]
      · by_cases hp : permits h d 1 = true
        · simp [hk, hc, hp, permits_privileged]
        · simp [hk, hc, hp] at hne

theorem walk_privileged (h : Host) (cs : List String) :
    ∀ cur, walk h cur cs ≠ .error .EACCES → walk h.privileged cur cs = walk h cur cs := by
  induction cs with
  | nil => intro cur _; rfl
  | cons c cs ih =>
    intro cur hne
    unfold walk at hne ⊢
    cases hs : step h cur c with
    | error e =>
      rw [hs] at hne
      have : step h.privileged cur c = .error e := by
        rw [step_privileged, hs]
        rw [hs]; simpa using hne
      rw [this]
    | ok next =>
      rw [hs] at hne
      have : step h.privileged cur c = .ok next := by
        rw [step_privileged, hs]
        rw [hs]; simp
      rw [this]
      exact ih next hne

theorem lookup_privileged (h : Host) (path : String)
    (hne : lookup h path ≠ .error .EACCES) :
    lookup h.privileged path = lookup h path := by
  unfold lookup at hne ⊢
  by_cases hp : path = ""
  · simp [hp]
  · simp only [hp, ↓reduceIte] at hne ⊢
    have hs : startDir h.privileged path = startDir h path := rfl
    have hn : h.privileged.nodes = h.nodes := rfl
    rw [hs, hn]
    have hw : walk h (startDir h path) (components path) ≠ .error .EACCES := by
      intro hw
      rw [hw] at hne
      exact hne rfl
    rw [walk_privileged h _ _ hw]

/-! ## Path lookup: components -/

theorem splitSlash_ne_nil (cs : List Char) : splitSlash cs ≠ [] := by
  cases cs with
  | nil => simp [splitSlash]
  | cons c cs =>
    unfold splitSlash
    split
    · simp
    · split <;> simp

theorem components_ne_nil (path : String) : components path ≠ [] := by
  simp [components, splitSlash_ne_nil]

theorem components_split (path : String) :
    components path = (components path).dropLast ++ [(components path).getLastD ""] := by
  have hne := components_ne_nil path
  generalize components path = cs at hne
  rw [List.getLastD_eq_getLast?, List.getLast?_eq_getLast cs hne]
  simp [List.dropLast_append_getLast]

theorem walk_append (h : Host) (cs : List String) (c : String) :
    ∀ cur, walk h cur (cs ++ [c]) =
      match walk h cur cs with
      | .error e => .error e
      | .ok dir => step h dir c := by
  induction cs with
  | nil =>
    intro cur
    simp only [List.nil_append, walk]
    cases step h cur c <;> rfl
  | cons x xs ih =>
    intro cur
    simp only [List.cons_append, walk]
    cases step h cur x with
    | error e => rfl
    | ok next => exact ih next

/-! ## Path lookup: entries that stay in place -/

theorem step_mono (h h2 : Host) (hk : keepsDirs h h2) (cur : List String) (c : String)
    (r : List String) (hs : step h cur c = .ok r) : step h2 cur c = .ok r := by
  unfold step at hs ⊢
  cases hcur : h.nodes cur with
  | none => simp [hcur] at hs
  | some d =>
    obtain ⟨d2, hd2, hkind, hperm⟩ := hk cur d hcur
    simp only [hcur] at hs
    simp only [hd2, hkind]
    by_cases hdir : d.kind = .directory
    · simp only [hdir, ne_eq, not_true_eq_false, ↓reduceIte] at hs ⊢
      rw [hperm hdir]
      by_cases hc : c = ""
      · simpa [hc] using hs
      · simp only [hc, ↓reduceIte] at hs ⊢
        by_cases hp : permits h d 1 = true
        · simp only [hp, Bool.not_true, Bool.false_eq_true, ↓reduceIte] at hs ⊢
          by_cases h1 : c = "."
          · simpa [h1] using hs
          · by_cases h2 : c = ".."
            · simpa [h1, h2] using hs
            · simp only [h1, h2, ↓reduceIte] at hs ⊢
              cases hnext : h.nodes (cur ++ [c]) with
              | none => simp [hnext] at hs
              | some x =>
                obtain ⟨x2, hx2, _, _⟩ := hk _ x hnext
                simpa [hnext, hx2] using hs
        · simp [hp] at hs
    · simp [hdir] at hs

theorem walk_mono (h h2 : Host) (hk : keepsDirs h h2) (cs : List String) :
    ∀ cur r, walk h cur cs = .ok r → walk h2 cur cs = .ok r := by
  induction cs with
  | nil => intro cur r hw; simpa [walk] using hw
  | cons c cs ih =>
    intro cur r hw
    unfold walk at hw ⊢
    cases hs : step h cur c with
    | error e => simp [hs] at hw
    | ok next =>
      rw [step_mono h h2 hk cur c next hs]
      rw [hs] at hw
      exact ih next r hw

theorem lookup_ok_iff (h : Host) (path : String) (k : List String) (n : Inode) :
    lookup h path = .ok (k, n) ↔
      path ≠ "" ∧ walk h (startDir h path) (components path) = .ok k ∧ h.nodes k = some n := by
  unfold lookup
  by_cases hp : path = ""
  · simp [hp]
  · simp only [hp, ↓reduceIte, ne_eq, not_false_eq_true, true_and]
    cases hw : walk h (startDir h path) (components path) with
    | error e => simp
    | ok k2 =>
      simp only []
      constructor
      · intro hm
        cases hn : h.nodes k2 with
        | none => simp [hn] at hm
        | some n2 =>
          simp only [hn, Except.ok.injEq, Prod.mk.injEq] at hm
          obtain ⟨rfl, rfl⟩ := hm
          exact ⟨rfl, hn⟩
      · rintro ⟨hk, hn⟩
        have hk2 : k2 = k := by simpa using hk
        subst hk2
        simp [hn]

theorem lookup_mono (h h2 : Host) (hk : keepsDirs h h2) (hcwd : h2.cwd = h.cwd)
    (path : String) (k : List String) (n n2 : Inode)
    (hl : lookup h path = .ok (k, n)) (hn2 : h2.nodes k = some n2) :
    lookup h2 path = .ok (k, n2) := by
  rw [lookup_ok_iff] at hl ⊢
  obtain ⟨hp, hw, _⟩ := hl
  refine ⟨hp, ?_, hn2⟩
  have hs : startDir h2 path = startDir h path := by simp [startDir, hcwd]
  rw [hs]
  exact walk_mono h h2 hk _ _ _ hw

/-! ## `PathExists` -/

theorem Stat_ok_entryAt (h : Host) (path : String) (fi : FileInfo)
    (hs : Stat h path = .ok fi) :
    ∃ n, entryAt h path = some n ∧ n.kind = fi.kind ∧ n.perm = fi.perm := by
  unfold Stat at hs
  cases hl : lookup h path with
  | error e => simp [hl] at hs
  | ok kn =>
    obtain ⟨k, n⟩ := kn
    simp only [hl, Except.ok.injEq] at hs
    have hp : lookup h.privileged path = .ok (k, n) := by
      rw [lookup_privileged h path (by simp [hl]), hl]
    refine ⟨n, ?_, ?_, ?_⟩
    · simp [entryAt, hp]
    · rw [← hs]
    · rw [← hs]

theorem Stat_error_entryAt (h : Host) (path : String) (e : Errno)
    (hs : Stat h path = .error e) (he : e ≠ .EACCES) : entryAt h path = none := by
  unfold Stat at hs
  cases hl : lookup h path with
  | ok kn => simp [hl] at hs
  | error e2 =>
    simp only [hl, Except.error.injEq] at hs
    subst hs
    have hp : lookup h.privileged path = .error e2 := by
      rw [lookup_privileged h path (by simpa [hl] using he), hl]
    simp [entryAt, hp]

/-- C1 (as amended).  `PathExists` answers false exactly when `os.Stat` reports
"not found"; it answers true when the stat succeeds and when it fails with any
other error.  A false answer is given only for a path at which no entry exists.
The function only inspects the host: its result is a boolean and no new host. -/
theorem PathExists_false_iff_not_found (h : Host) (path : String) :
    (PathExists h path = false ↔ Stat h path = .error .ENOENT) ∧
    (∀ fi, Stat h path = .ok fi → PathExists h path = true) ∧
    (∀ e, Stat h path = .error e → e ≠ .ENOENT → PathExists h path = true) ∧
    (PathExists h path = false → entryAt h path = none) := by
  have key : PathExists h path = false ↔ Stat h path = .error .ENOENT := by
    unfold PathExists IsNotExist errOf
    cases hs : Stat h path with
    | error e => cases e <;> simp
    | ok fi => simp
  refine ⟨key, ?_, ?_, ?_⟩
  · intro fi hs
    cases hp : PathExists h path with
    | true => rfl
    | false => rw [key.mp hp] at hs; cases hs
  · intro e hs he
    cases hp : PathExists h path with
    | true => rfl
    | false =>
      rw [key.mp hp] at hs
      cases hs
      exact absurd rfl he
  · intro hp
    exact Stat_error_entryAt h path .ENOENT (key.mp hp) (by decide)

/-- C1, concrete instance of the amended statement on the example host: `/opt` is
missing, the stat reports "not found" and `PathExists` is false; `/app/run.sh` is
there and `PathExists` is true. -/
theorem PathExists_false_iff_not_found_witness :
    Stat sampleHost "/opt" = .error .ENOENT ∧ PathExists sampleHost "/opt" = false ∧
    entryAt sampleHost "/opt" = none ∧ PathExists sampleHost "/app/run.sh" = true :=
  ⟨rfl, (PathExists_false_iff_not_found sampleHost "/opt").1.mpr rfl,
    (PathExists_false_iff_not_found sampleHost "/opt").2.2.2
      ((PathExists_false_iff_not_found sampleHost "/opt").1.mpr rfl),
    (PathExists_false_iff_not_found sampleHost "/app/run.sh").2.1 ⟨.regular, 420⟩ rfl⟩

/-- C1, counterexample to "false for every non-existent path".  No entry exists at
`/etc/passwd/x` (its parent is a regular file), the stat fails with "not a
directory", which `os.IsNotExist` does not recognise, and `PathExists` is true. -/
theorem PathExists_true_on_missing_path :
    entryAt sampleHost "/etc/passwd/x" = none ∧
    Stat sampleHost "/etc/passwd/x" = .error .ENOTDIR ∧
    PathExists sampleHost "/etc/passwd/x" = true :=
  ⟨by decide, rfl, by decide⟩


/-! ## `FileExists` -/

/-- C2 (as amended).  `FileExists` answers true exactly when `os.Stat` succeeds and
the entry is not a directory.  So it is true only if an entry exists at the path,
true for every regular file the stat reaches, false for every existing directory,
false whenever the stat fails, and true for a device or a socket the stat
reaches. -/
theorem FileExists_iff_stat_not_dir (h : Host) (path : String) :
    (FileExists h path = true ↔ ∃ fi, Stat h path = .ok fi ∧ fi.kind ≠ .directory) ∧
    (FileExists h path = true → ∃ n, entryAt h path = some n ∧ n.kind ≠ .directory) ∧
    (∀ fi, Stat h path = .ok fi → fi.kind = .regular → FileExists h path = true) ∧
    (∀ n, entryAt h path = some n → n.kind = .directory → FileExists h path = false) ∧
    (∀ e, Stat h path = .error e → FileExists h path = false) ∧
    (∀ fi, Stat h path = .ok fi → fi.kind = .device ∨ fi.kind = .socket →
      FileExists h path = true) := by
  have key : FileExists h path = true ↔ ∃ fi, Stat h path = .ok fi ∧ fi.kind ≠ .directory := by
    unfold FileExists FileInfo.IsDir
    cases hs : Stat h path with
    | error e => simp
    | ok fi => simp
  have ent : FileExists h path = true → ∃ n, entryAt h path = some n ∧ n.kind ≠ .directory := by
    intro hf
    obtain ⟨fi, hs, hk⟩ := key.mp hf
    obtain ⟨n, hn, hkind, _⟩ := Stat_ok_entryAt h path fi hs
    exact ⟨n, hn, by rw [hkind]; exact hk⟩
  refine ⟨key, ent, ?_, ?_, ?_, ?_⟩
  · intro fi hs hk
    exact key.mpr ⟨fi, hs, by rw [hk]; decide⟩
  · intro n hn hk
    cases hf : FileExists h path with
    | false => rfl
    | true =>
      obtain ⟨n2, hn2, hk2⟩ := ent hf
      rw [hn] at hn2
      cases hn2
      exact absurd hk hk2
  · intro e hs
    cases hf : FileExists h path with
    | false => rfl
    | true =>
      obtain ⟨fi, hs2, _⟩ := key.mp hf
      rw [hs] at hs2
      cases hs2
  · intro fi hs hk
    refine key.mpr ⟨fi, hs, ?_⟩
    rcases hk with hk | hk <;> rw [hk] <;> decide

/-- C2, concrete instance of the amended statement on the example host: true for
the regular file `/app/run.sh`, false for the directory `/app`, false for the
missing `/opt`. -/
theorem FileExists_iff_stat_not_dir_witness :
    FileExists sampleHost "/app/run.sh" = true ∧ FileExists sampleHost "/app" = false ∧
    FileExists sampleHost "/opt" = false :=
  ⟨(FileExists_iff_stat_not_dir sampleHost "/app/run.sh").2.2.1 ⟨.regular, 420⟩ rfl rfl,
    (FileExists_iff_stat_not_dir sampleHost "/app").2.2.2.1 ⟨.directory, 493, 1000, 1000, ""⟩
      (by decide) rfl,
    (FileExists_iff_stat_not_dir sampleHost "/opt").2.2.2.2.1 .ENOENT rfl⟩

/-- C2, counterexample.  The null device is an existing entry that is not a regular
file, and `FileExists` is true for it; `/vault/key.sh` is an existing regular file
whose stat fails with "permission denied", and `FileExists` is false for it. -/
theorem FileExists_true_on_device :
    (entryAt sampleHost "/dev/null" = some ⟨.device, 438, 0, 0, ""⟩ ∧
      FileExists sampleHost "/dev/null" = true) ∧
    (entryAt sampleHost "/vault/key.sh" = some ⟨.regular, 493, 1000, 1000, "exit 0"⟩ ∧
      Stat sampleHost "/vault/key.sh" = .error .EACCES ∧
      FileExists sampleHost "/vault/key.sh" = false) :=
  ⟨⟨by decide, by decide⟩, by decide, rfl, by decide⟩


/-! ## Absolute paths -/

theorem IsAbs_ne_empty (path : String) (ha : IsAbs path = true) : path ≠ "" := by
  intro hp
  subst hp
  simp [IsAbs] at ha

theorem IsAbs_append (a b : String) (ha : IsAbs a = true) : IsAbs (a ++ b) = true := by
  unfold IsAbs at ha ⊢
  rw [String.data_append]
  cases hd : a.data with
  | nil => simp [hd] at ha
  | cons c cs => simpa [hd] using ha

theorem IsAbs_slash_append (b : String) : IsAbs ("/" ++ b) = true :=
  IsAbs_append "/" b rfl

theorem IsAbs_Clean (path : String) (ha : IsAbs path = true) : IsAbs (Clean path) = true := by
  unfold Clean
  simp only [IsAbs_ne_empty path ha, ↓reduceIte, ha]
  exact IsAbs_slash_append _

theorem Join_of_IsAbs (a b : String) (ha : IsAbs a = true) :
    Join [a, b] = Clean (a ++ "/" ++ b) := by
  have hne := IsAbs_ne_empty a ha
  simp [Join, hne, String.intercalate, String.intercalate.go]

theorem IsAbs_Join (a b : String) (ha : IsAbs a = true) : IsAbs (Join [a, b]) = true := by
  rw [Join_of_IsAbs a b ha]
  apply IsAbs_Clean
  rw [String.append_assoc]
  exact IsAbs_append a _ ha

theorem Abs_of_IsAbs (h : Host) (path : String) (ha : IsAbs path = true) :
    Abs h path = .ok (Clean path) := by
  simp [Abs, ha]

theorem Getwd_IsAbs (h : Host) (wd : String) (hw : Getwd h = .ok wd) : IsAbs wd = true := by
  unfold Getwd at hw
  cases hn : h.nodes h.cwd with
  | none => simp [hn] at hw
  | some d =>
    simp only [hn] at hw
    by_cases hk : d.kind = .directory
    · simp only [hk, ↓reduceIte, Except.ok.injEq] at hw
      rw [← hw]
      exact IsAbs_slash_append _
    · simp [hk] at hw

theorem Abs_IsAbs (h : Host) (path r : String) (hr : Abs h path = .ok r) : IsAbs r = true := by
  unfold Abs at hr
  by_cases ha : IsAbs path = true
  · simp only [ha, ↓reduceIte, Except.ok.injEq] at hr
    rw [← hr]
    exact IsAbs_Clean path ha
  · simp only [ha, Bool.false_eq_true, ↓reduceIte] at hr
    cases hw : Getwd h with
    | error e => simp [hw] at hr
    | ok wd =>
      simp only [hw, Except.ok.injEq] at hr
      rw [← hr]
      exact IsAbs_Join wd path (Getwd_IsAbs h wd hw)


/-! ## `GetValidatedFullPath` -/

/-- What a normal return of `GetValidatedFullPath` does establish: the result is the
absolute form of the input, it is an absolute path, and the stat of it did not
report "not found". -/
theorem GetValidatedFullPath_ok (h : Host) (filePath r : String)
    (hr : GetValidatedFullPath h filePath = .ok r) :
    Abs h filePath = .ok r ∧ IsAbs r = true ∧ Stat h r ≠ .error .ENOENT := by
  unfold GetValidatedFullPath at hr
  cases ha : Abs h filePath with
  | error e => simp [ha] at hr
  | ok p =>
    simp only [ha] at hr
    by_cases hn : IsNotExist (errOf (Stat h p)) = true
    · simp [hn] at hr
    · simp only [hn, Bool.false_eq_true, ↓reduceIte, Except.ok.injEq] at hr
      subst hr
      refine ⟨rfl, Abs_IsAbs h filePath p ha, ?_⟩
      intro hs
      apply hn
      simp [hs, errOf, IsNotExist]

/-- The two panics of `GetValidatedFullPath`: the error of `filepath.Abs`, and the
message naming the resolved path when its stat reports "not found". -/
theorem GetValidatedFullPath_panics (h : Host) (filePath : String) :
    (∀ e, Abs h filePath = .error e → GetValidatedFullPath h filePath = .error (.err e)) ∧
    (∀ p, Abs h filePath = .ok p → Stat h p = .error .ENOENT →
      GetValidatedFullPath h filePath = .error (.msg ("Path '" ++ p ++ "' does not exist."))) := by
  constructor
  · intro e ha
    simp [GetValidatedFullPath, ha]
  · intro p ha hs
    simp [GetValidatedFullPath, ha, hs, errOf, IsNotExist]

/-- Both panics on concrete inputs: with the working directory removed, a relative
path makes `filepath.Abs` fail and the error is the panic value; on the example
host the missing `/opt` gives the panic with the message. -/
theorem GetValidatedFullPath_panics_example :
    GetValidatedFullPath orphanHost "run.sh" = .error (.err .ENOENT) ∧
    GetValidatedFullPath sampleHost "/opt" = .error (.msg "Path '/opt' does not exist.") :=
  ⟨(GetValidatedFullPath_panics orphanHost "run.sh").1 .ENOENT rfl,
    (GetValidatedFullPath_panics sampleHost "/opt").2 "/opt" rfl rfl⟩

/-- C3, the code at the failing input.  On the example host `/etc/passwd` is a
regular file, so no entry exists at `/etc/passwd/x` and the stat of it fails with
"not a directory"; `GetValidatedFullPath` returns the path all the same. -/
theorem GetValidatedFullPath_returns_unconfirmed_path :
    GetValidatedFullPath sampleHost "/etc/passwd/x" = .ok "/etc/passwd/x" ∧
    Stat sampleHost "/etc/passwd/x" = .error .ENOTDIR ∧
    entryAt sampleHost "/etc/passwd/x" = none :=
  ⟨rfl, rfl, by decide⟩

/-- C4, the code at the failing input.  From the working directory `/app` the
relative path `run.sh/lib` resolves to `/app/run.sh/lib`; no entry exists there
(`run.sh` is a regular file), and `GetValidatedFullPath` does not panic: it returns
the resolved path. -/
theorem GetValidatedFullPath_no_panic_on_missing_path :
    Abs sampleHost "run.sh/lib" = .ok "/app/run.sh/lib" ∧
    entryAt sampleHost "/app/run.sh/lib" = none ∧
    GetValidatedFullPath sampleHost "run.sh/lib" = .ok "/app/run.sh/lib" :=
  ⟨rfl, by decide, rfl⟩

/-! ## Absolute inputs never reach the resolution panic -/

/-- C10.  For an absolute `sourcePath` the joined path is absolute, so
`ParseCommandAndAddExecutionPermission` does not panic and returns a boolean; for
an absolute `filePath`, `filepath.Abs` succeeds with the cleaned path, so
`GetValidatedFullPath` either returns it or panics with the "does not exist"
message, never with a resolution error. -/
theorem absolute_inputs_skip_resolution_panic (h : Host) :
    (∀ commandString sourcePath, IsAbs sourcePath = true →
      IsAbs (Join [sourcePath, commandString]) = true ∧
      ∃ h2 b, ParseCommandAndAddExecutionPermission h commandString sourcePath = .ok (h2, b)) ∧
    (∀ filePath, IsAbs filePath = true →
      Abs h filePath = .ok (Clean filePath) ∧
      (GetValidatedFullPath h filePath = .ok (Clean filePath) ∨
        GetValidatedFullPath h filePath =
          .error (.msg ("Path '" ++ Clean filePath ++ "' does not exist.")))) := by
  constructor
  · intro commandString sourcePath ha
    have hj := IsAbs_Join sourcePath commandString ha
    refine ⟨hj, ?_⟩
    unfold ParseCommandAndAddExecutionPermission
    rw [Abs_of_IsAbs h _ hj]
    simp only []
    by_cases hf : FileExists h (Clean (Join [sourcePath, commandString])) = true
    · simp only [hf, ↓reduceIte]
      exact ⟨_, _, rfl⟩
    · simp only [hf, Bool.false_eq_true, ↓reduceIte]
      exact ⟨_, _, rfl⟩
  · intro filePath ha
    have hab := Abs_of_IsAbs h filePath ha
    refine ⟨hab, ?_⟩
    unfold GetValidatedFullPath
    rw [hab]
    simp only []
    by_cases hn : IsNotExist (errOf (Stat h (Clean filePath))) = true
    · right; simp [hn]
    · left; simp [hn]

/-- C10, concrete instance: with the absolute source directory `/app` the call
returns true for `run.sh` on the example host, and `GetValidatedFullPath` of the
absolute but missing `/opt` panics with the message. -/
theorem absolute_inputs_skip_resolution_panic_witness :
    IsAbs (Join ["/app", "run.sh"]) = true ∧
    (∃ h2 b, ParseCommandAndAddExecutionPermission sampleHost "run.sh" "/app" = .ok (h2, b)) ∧
    Abs sampleHost "/opt" = .ok (Clean "/opt") ∧
    GetValidatedFullPath sampleHost "/opt" = .error (.msg "Path '/opt' does not exist.") :=
  ⟨((absolute_inputs_skip_resolution_panic sampleHost).1 "run.sh" "/app" rfl).1,
    ((absolute_inputs_skip_resolution_panic sampleHost).1 "run.sh" "/app" rfl).2,
    ((absolute_inputs_skip_resolution_panic sampleHost).2 "/opt" rfl).1, rfl⟩


/-! ## `os.Chmod` -/

theorem keepsDirs_setNode_privileged (h : Host) (k : List String) (n n2 : Inode)
    (hn : h.nodes k = some n) (hk : n2.kind = n.kind) :
    keepsDirs h.privileged (h.setNode k n2).privileged := by
  intro q d hq
  by_cases hqk : q = k
  · subst hqk
    have hq2 : h.nodes q = some d := hq
    rw [hn] at hq2
    cases hq2
    refine ⟨n2, ?_, hk, ?_⟩
    · simp [Host.privileged, Host.setNode]
    · intro _
      rw [permits_privileged]
      exact (permits_privileged h n 1).symm
  · refine ⟨d, ?_, rfl, ?_⟩
    · have : h.nodes q = some d := hq
      simp [Host.privileged, Host.setNode, hqk, this]
    · intro _
      rw [permits_privileged]
      exact (permits_privileged h d 1).symm

theorem keepsDirs_setNode_nondir (h : Host) (k : List String) (n2 : Inode)
    (hn : ∀ n, h.nodes k = some n → n.kind ≠ .directory ∧ n2.kind = n.kind) :
    keepsDirs h (h.setNode k n2) := by
  intro q d hq
  by_cases hqk : q = k
  · subst hqk
    obtain ⟨hnd, hk⟩ := hn d hq
    refine ⟨n2, ?_, hk, ?_⟩
    · simp [Host.setNode]
    · intro hdir
      exact absurd hdir hnd
  · refine ⟨d, ?_, rfl, ?_⟩
    · simp [Host.setNode, hqk, hq]
    · intro _
      rfl

theorem entryAt_of_lookup (h : Host) (path : String) (k : List String) (n : Inode)
    (hl : lookup h path = .ok (k, n)) : entryAt h path = some n := by
  have hp : lookup h.privileged path = .ok (k, n) := by
    rw [lookup_privileged h path (by simp [hl]), hl]
  simp [entryAt, hp]

theorem entryAt_none_lookup (h : Host) (path : String) (hn : entryAt h path = none) :
    ∃ e, lookup h path = .error e := by
  cases hl : lookup h path with
  | error e => exact ⟨e, rfl⟩
  | ok kn =>
    obtain ⟨k, n⟩ := kn
    rw [entryAt_of_lookup h path k n hl] at hn
    cases hn

theorem entryAt_setNode (h : Host) (path : String) (k : List String) (n n2 : Inode)
    (hl : lookup h path = .ok (k, n)) (hk : n2.kind = n.kind) :
    entryAt (h.setNode k n2) path = some n2 := by
  have hp : lookup h.privileged path = .ok (k, n) := by
    rw [lookup_privileged h path (by simp [hl]), hl]
  have hn : h.nodes k = some n := ((lookup_ok_iff h path k n).mp hl).2.2
  have hm := lookup_mono h.privileged (h.setNode k n2).privileged
    (keepsDirs_setNode_privileged h k n n2 hn hk) rfl path k n n2 hp
    (by simp [Host.privileged, Host.setNode])
  simp [entryAt, hm]

theorem lookup_setNode_nondir (h : Host) (path : String) (k : List String) (n n2 : Inode)
    (hl : lookup h path = .ok (k, n)) (hk : n2.kind = n.kind) (hnd : n.kind ≠ .directory) :
    lookup (h.setNode k n2) path = .ok (k, n2) := by
  have hn : h.nodes k = some n := ((lookup_ok_iff h path k n).mp hl).2.2
  refine lookup_mono h (h.setNode k n2) ?_ rfl path k n n2 hl (by simp [Host.setNode])
  apply keepsDirs_setNode_nondir
  intro m hm
  rw [hn] at hm
  cases hm
  exact ⟨hnd, hk⟩

theorem Chmod_lookup_error (h : Host) (name : String) (mode : Nat) (e : Errno)
    (hl : lookup h name = .error e) : Chmod h name mode = (h, some e) := by
  simp [Chmod, hl]

theorem Chmod_not_owner (h : Host) (name : String) (mode : Nat) (k : List String) (n : Inode)
    (hl : lookup h name = .ok (k, n)) (ho : h.euid ≠ 0 ∧ h.euid ≠ n.uid) :
    Chmod h name mode = (h, some .EPERM) := by
  simp [Chmod, hl, ho]

theorem Chmod_owner (h : Host) (name : String) (mode : Nat) (k : List String) (n : Inode)
    (hl : lookup h name = .ok (k, n)) (ho : h.euid = 0 ∨ h.euid = n.uid) :
    Chmod h name mode =
      (h.setNode k { n with perm := chmodBits h n (syscallMode mode) }, none) := by
  have : ¬ (h.euid ≠ 0 ∧ h.euid ≠ n.uid) := by
    rintro ⟨h0, h1⟩
    rcases ho with ho | ho
    · exact h0 ho
    · exact h1 ho
  simp only [Chmod, hl, this, ↓reduceIte]

theorem Chmod_failure_keeps_host (h : Host) (name : String) (mode : Nat)
    (hf : (Chmod h name mode).2 ≠ none) : (Chmod h name mode).1 = h := by
  cases hl : lookup h name with
  | error e => rw [Chmod_lookup_error h name mode e hl]
  | ok kn =>
    obtain ⟨k, n⟩ := kn
    by_cases ho : h.euid = 0 ∨ h.euid = n.uid
    · rw [Chmod_owner h name mode k n hl ho] at hf
      exact absurd rfl hf
    · have ho2 : h.euid ≠ 0 ∧ h.euid ≠ n.uid := by
        constructor
        · intro h0; exact ho (Or.inl h0)
        · intro h1; exact ho (Or.inr h1)
      rw [Chmod_not_owner h name mode k n hl ho2]

theorem syscallMode_low_bits (m : Nat) : syscallMode m % 512 = m % 512 := by
  unfold syscallMode
  split <;> split <;> split <;> omega

theorem chmodBits_low_bits (h : Host) (n : Inode) (bits : Nat) :
    chmodBits h n bits % 512 = bits % 512 := by
  unfold chmodBits
  split
  · rename_i hc
    obtain ⟨_, _, hb⟩ := hc
    omega
  · rfl

theorem chmodBits_small (h : Host) (n : Inode) (bits : Nat) (hb : bits < 1024) :
    chmodBits h n bits = bits := by
  unfold chmodBits
  have : ¬ (bits / 1024 % 2 = 1) := by omega
  simp [this]

theorem syscallMode_small (m : Nat) (hm : m < 512) : syscallMode m = m := by
  unfold syscallMode
  have h1 : ¬ (m / 8388608 % 2 = 1) := by omega
  have h2 : ¬ (m / 4194304 % 2 = 1) := by omega
  have h3 : ¬ (m / 1048576 % 2 = 1) := by omega
  simp only [h1, h2, h3, ↓reduceIte]
  omega

theorem FileMode_small (p : Int) (h0 : 0 ≤ p) (h1 : p ≤ 511) : (FileMode p : Int) = p := by
  unfold FileMode
  omega


/-! ## `AddPermission` -/

theorem AddPermission_fst (h : Host) (path : String) (permission : Int) :
    (AddPermission h path permission).1 = (Chmod h path (FileMode permission)).1 := by
  unfold AddPermission
  rcases hc : Chmod h path (FileMode permission) with ⟨h1, _ | e⟩ <;> rfl

theorem AddPermission_snd (h : Host) (path : String) (permission : Int) :
    (AddPermission h path permission).2 = true ↔ (Chmod h path (FileMode permission)).2 = none := by
  unfold AddPermission
  rcases hc : Chmod h path (FileMode permission) with ⟨h1, _ | e⟩ <;> simp

theorem AddPermission_lookup_error (h : Host) (path : String) (permission : Int) (e : Errno)
    (hl : lookup h path = .error e) : AddPermission h path permission = (h, false) := by
  unfold AddPermission
  rw [Chmod_lookup_error h path _ e hl]

theorem AddPermission_owner (h : Host) (path : String) (permission : Int) (k : List String)
    (n : Inode) (hl : lookup h path = .ok (k, n)) (ho : h.euid = 0 ∨ h.euid = n.uid) :
    AddPermission h path permission =
      (h.setNode k { n with perm := chmodBits h n (syscallMode (FileMode permission)) }, true) := by
  unfold AddPermission
  rw [Chmod_owner h path _ k n hl ho]

theorem AddPermission_not_owner (h : Host) (path : String) (permission : Int)
    (k : List String) (n : Inode) (hl : lookup h path = .ok (k, n))
    (ho : h.euid ≠ 0 ∧ h.euid ≠ n.uid) : AddPermission h path permission = (h, false) := by
  unfold AddPermission
  rw [Chmod_not_owner h path _ k n hl ho]

/-- C6 (as amended).  `AddPermission` answers true exactly when `os.Chmod` succeeds
and false exactly when it fails.  At a path where no entry exists it answers false.
At an entry the lookup reaches and the caller owns (or as superuser) it answers
true, and afterwards the nine permission bits of the entry are the nine low bits of
the requested permission, the requested permission itself when that is within
0..0777; type and data of the entry stay.  At an entry the caller may not change
it answers false.  Whenever it answers false the host is exactly as before. -/
theorem AddPermission_true_iff_chmod_succeeds (h : Host) (path : String) (permission : Int) :
    ((AddPermission h path permission).2 = true ↔
      (Chmod h path (FileMode permission)).2 = none) ∧
    ((AddPermission h path permission).2 = false ↔
      ∃ e, (Chmod h path (FileMode permission)).2 = some e) ∧
    (entryAt h path = none → AddPermission h path permission = (h, false)) ∧
    (∀ k n, lookup h path = .ok (k, n) → h.euid = 0 ∨ h.euid = n.uid →
      (AddPermission h path permission).2 = true ∧
      ∃ n2, entryAt (AddPermission h path permission).1 path = some n2 ∧
        n2.perm % 512 = FileMode permission % 512 ∧
        (0 ≤ permission → permission ≤ 511 → (n2.perm : Int) = permission) ∧
        n2.kind = n.kind ∧ n2.content = n.content) ∧
    (∀ k n, lookup h path = .ok (k, n) → h.euid ≠ 0 → h.euid ≠ n.uid →
      AddPermission h path permission = (h, false)) ∧
    ((AddPermission h path permission).2 = false →
      (AddPermission h path permission).1 = h) := by
  refine ⟨AddPermission_snd h path permission, ?_, ?_, ?_, ?_, ?_⟩
  · have hs := AddPermission_snd h path permission
    cases hb : (AddPermission h path permission).2 with
    | true =>
      rw [hb] at hs
      simp [hs.mp rfl]
    | false =>
      rw [hb] at hs
      cases hc : (Chmod h path (FileMode permission)).2 with
      | none => exact absurd (hs.mpr hc) (by simp)
      | some e => simp
  · intro hn
    obtain ⟨e, he⟩ := entryAt_none_lookup h path hn
    exact AddPermission_lookup_error h path permission e he
  · intro k n hl ho
    rw [AddPermission_owner h path permission k n hl ho]
    refine ⟨rfl, _, entryAt_setNode h path k n _ hl rfl, ?_, ?_, rfl, rfl⟩
    · simp only []
      rw [chmodBits_low_bits, syscallMode_low_bits]
    · intro h0 h1
      have hf := FileMode_small permission h0 h1
      have hlt : FileMode permission < 512 := by omega
      simp only []
      rw [syscallMode_small _ hlt, chmodBits_small _ _ _ (by omega)]
      exact hf
  · intro k n hl h0 h1
    exact AddPermission_not_owner h path permission k n hl ⟨h0, h1⟩
  · intro hb
    rw [AddPermission_fst]
    apply Chmod_failure_keeps_host
    intro hc
    rw [(AddPermission_snd h path permission).mpr hc] at hb
    cases hb

/-- C6, concrete instance of the amended statement on the example host: user 1000
owns `/app/run.sh`, the call with 0755 answers true and the mode of the file is
0755 afterwards; nothing exists at `/opt/run.sh` and the call answers false. -/
theorem AddPermission_true_iff_chmod_succeeds_witness :
    ((AddPermission sampleHost "/app/run.sh" 493).2 = true ∧
      ∃ n2, entryAt (AddPermission sampleHost "/app/run.sh" 493).1 "/app/run.sh" = some n2 ∧
        n2.perm % 512 = FileMode 493 % 512 ∧
        (0 ≤ (493 : Int) → (493 : Int) ≤ 511 → (n2.perm : Int) = 493) ∧
        n2.kind = .regular ∧ n2.content = "echo hi") ∧
    AddPermission sampleHost "/opt/run.sh" 493 = (sampleHost, false) :=
  ⟨(AddPermission_true_iff_chmod_succeeds sampleHost "/app/run.sh" 493).2.2.2.1
      ["app", "run.sh"] ⟨.regular, 420, 1000, 1000, "echo hi"⟩ rfl (Or.inr rfl),
    (AddPermission_true_iff_chmod_succeeds sampleHost "/opt/run.sh" 493).2.2.1 (by decide)⟩

/-- C6, counterexample to "on an existing path it returns true and afterwards the
permission bits equal the requested permission".  `/etc/passwd` exists and belongs
to the superuser: for user 1000 the call answers false and the mode stays 0644.
`/app/run.sh` belongs to the caller: the call with the requested permission 01755
answers true and leaves the mode 0755. -/
theorem AddPermission_false_on_existing_path :
    (entryAt sampleHost "/etc/passwd" = some ⟨.regular, 420, 0, 0, "root:x:0:0"⟩ ∧
      (AddPermission sampleHost "/etc/passwd" 493).2 = false ∧
      entryAt (AddPermission sampleHost "/etc/passwd" 493).1 "/etc/passwd"
        = some ⟨.regular, 420, 0, 0, "root:x:0:0"⟩) ∧
    ((AddPermission sampleHost "/app/run.sh" 1005).2 = true ∧
      entryAt (AddPermission sampleHost "/app/run.sh" 1005).1 "/app/run.sh"
        = some ⟨.regular, 493, 1000, 1000, "echo hi"⟩) :=
  ⟨⟨by decide, by decide, by decide⟩, by decide, by decide⟩


/-! ## `ParseCommandAndAddExecutionPermission` -/

theorem FileExists_true_iff (h : Host) (path : String) :
    FileExists h path = true ↔ ∃ k n, lookup h path = .ok (k, n) ∧ n.kind ≠ .directory := by
  unfold FileExists Stat FileInfo.IsDir
  cases hl : lookup h path with
  | error e => simp
  | ok kn =>
    obtain ⟨k, n⟩ := kn
    simp only [Bool.not_eq_eq_eq_not, Bool.not_true, decide_eq_false_iff_not, Except.ok.injEq,
      Prod.mk.injEq, ne_eq]
    constructor
    · intro hk
      exact ⟨k, n, ⟨rfl, rfl⟩, hk⟩
    · rintro ⟨k2, n2, ⟨_, rfl⟩, hk⟩
      exact hk

theorem chmodBits_0755 (h : Host) (n : Inode) :
    chmodBits h n (syscallMode (FileMode 493)) = 493 := by
  have h1 : FileMode 493 = 493 := by decide
  rw [h1, syscallMode_small 493 (by decide), chmodBits_small h n 493 (by decide)]

theorem ParseCommand_of_Abs (h : Host) (commandString sourcePath resolved : String)
    (hres : Abs h (Join [sourcePath, commandString]) = .ok resolved) :
    ParseCommandAndAddExecutionPermission h commandString sourcePath =
      if FileExists h resolved then .ok (AddPermission h resolved 493) else .ok (h, false) := by
  simp [ParseCommandAndAddExecutionPermission, hres]

/-- C5 (as amended).  When `filepath.Abs` of the joined path succeeds with
`resolved`: if an entry other than a directory exists at `resolved` (a regular
file, and equally a device or a socket), the call returns exactly what
`AddPermission(resolved, 0755)` returns, and when that is true the entry has mode
0755 afterwards, executable by owner, group and others; if nothing exists at
`resolved`, or a directory, or the stat of it fails, the call returns false and the
host is unchanged. -/
theorem ParseCommand_adds_permission_or_keeps_host (h : Host)
    (commandString sourcePath resolved : String)
    (hres : Abs h (Join [sourcePath, commandString]) = .ok resolved) :
    (∀ n, entryAt h resolved = some n → n.kind ≠ .directory →
      ParseCommandAndAddExecutionPermission h commandString sourcePath
        = .ok (AddPermission h resolved 493) ∧
      ((AddPermission h resolved 493).2 = true →
        entryAt (AddPermission h resolved 493).1 resolved = some { n with perm := 493 } ∧
        Stat (AddPermission h resolved 493).1 resolved = .ok ⟨n.kind, 493⟩ ∧
        executableByAll 493 = true)) ∧
    ((entryAt h resolved = none ∨ (∃ n, entryAt h resolved = some n ∧ n.kind = .directory) ∨
        (∃ e, Stat h resolved = .error e)) →
      ParseCommandAndAddExecutionPermission h commandString sourcePath = .ok (h, false)) := by
  rw [ParseCommand_of_Abs h commandString sourcePath resolved hres]
  constructor
  · intro n hent hnd
    cases hl : lookup h resolved with
    | error e =>
      have hf : FileExists h resolved = false := by
        cases hfe : FileExists h resolved with
        | false => rfl
        | true =>
          obtain ⟨k, m, hkm, _⟩ := (FileExists_true_iff h resolved).mp hfe
          rw [hl] at hkm
          cases hkm
      rw [AddPermission_lookup_error h resolved 493 e hl]
      simp [hf]
    | ok kn =>
      obtain ⟨k, m⟩ := kn
      have hm : entryAt h resolved = some m := entryAt_of_lookup h resolved k m hl
      rw [hent] at hm
      cases hm
      have hf : FileExists h resolved = true :=
        (FileExists_true_iff h resolved).mpr ⟨k, n, hl, hnd⟩
      refine ⟨by simp [hf], ?_⟩
      intro hb
      by_cases ho : h.euid = 0 ∨ h.euid = n.uid
      · rw [AddPermission_owner h resolved 493 k n hl ho, chmodBits_0755]
        refine ⟨entryAt_setNode h resolved k n _ hl rfl, ?_, by decide⟩
        have hl2 := lookup_setNode_nondir h resolved k n { n with perm := 493 } hl rfl hnd
        rw [Stat, hl2]
      · have ho2 : h.euid ≠ 0 ∧ h.euid ≠ n.uid := by
          constructor
          · intro h0; exact ho (Or.inl h0)
          · intro h1; exact ho (Or.inr h1)
        rw [AddPermission_not_owner h resolved 493 k n hl ho2] at hb
        cases hb
  · intro hcase
    have hf : FileExists h resolved = false := by
      cases hfe : FileExists h resolved with
      | false => rfl
      | true =>
        obtain ⟨k, m, hkm, hnd⟩ := (FileExists_true_iff h resolved).mp hfe
        have hm := entryAt_of_lookup h resolved k m hkm
        rcases hcase with hnone | ⟨n, hn, hdir⟩ | ⟨e, he⟩
        · rw [hnone] at hm; cases hm
        · rw [hn] at hm
          cases hm
          exact absurd hdir hnd
        · simp [Stat, hkm] at he
    simp [hf]

/-- C5, concrete instance of the amended statement (the example of the
specification): on the example host
`ParseCommandAndAddExecutionPermission("run.sh", "/app")` returns true and
`/app/run.sh` has mode 0755 afterwards; for the missing `start.sh` it returns false
and the host is unchanged. -/
theorem ParseCommand_adds_permission_or_keeps_host_witness :
    Abs sampleHost (Join ["/app", "run.sh"]) = .ok "/app/run.sh" ∧
    (ParseCommandAndAddExecutionPermission sampleHost "run.sh" "/app"
        = .ok (AddPermission sampleHost "/app/run.sh" 493) ∧
      ((AddPermission sampleHost "/app/run.sh" 493).2 = true →
        entryAt (AddPermission sampleHost "/app/run.sh" 493).1 "/app/run.sh"
          = some ⟨.regular, 493, 1000, 1000, "echo hi"⟩ ∧
        Stat (AddPermission sampleHost "/app/run.sh" 493).1 "/app/run.sh"
          = .ok ⟨.regular, 493⟩ ∧
        executableByAll 493 = true)) ∧
    (AddPermission sampleHost "/app/run.sh" 493).2 = true ∧
    ParseCommandAndAddExecutionPermission sampleHost "start.sh" "/app"
      = .ok (sampleHost, false) :=
  ⟨rfl,
    (ParseCommand_adds_permission_or_keeps_host sampleHost "run.sh" "/app" "/app/run.sh" rfl).1
      ⟨.regular, 420, 1000, 1000, "echo hi"⟩ (by decide) (by decide),
    by decide,
    (ParseCommand_adds_permission_or_keeps_host sampleHost "start.sh" "/app" "/app/start.sh"
      rfl).2 (Or.inl (by decide))⟩

/-- C5, counterexample to "otherwise it returns false and the filesystem state is
unchanged".  On the example host `/run/app.sock` is a socket, not a regular file;
`FileExists` is true for it, the call hands it to `AddPermission`, returns true,
and the mode of the socket, 0660 before, is 0755 afterwards. -/
theorem ParseCommand_true_on_socket :
    Abs sampleHost (Join ["/run", "app.sock"]) = .ok "/run/app.sock" ∧
    entryAt sampleHost "/run/app.sock" = some ⟨.socket, 432, 1000, 1000, ""⟩ ∧
    ParseCommandAndAddExecutionPermission sampleHost "app.sock" "/run"
      = .ok (AddPermission sampleHost "/run/app.sock" 493) ∧
    (AddPermission sampleHost "/run/app.sock" 493).2 = true ∧
    entryAt (AddPermission sampleHost "/run/app.sock" 493).1 "/run/app.sock"
      = some ⟨.socket, 493, 1000, 1000, ""⟩ :=
  ⟨rfl, by decide, rfl, by decide, by decide⟩

/-- C9.  When a regular file exists at the resolved path and the call returns true,
the host after the call is the host before it with the mode of that one entry
replaced by exactly 0755, whatever the mode was: owner, group, type and data of the
entry stay, and every other entry is the one it was. -/
theorem ParseCommand_replaces_mode (h h2 : Host) (commandString sourcePath resolved : String)
    (n : Inode) (hres : Abs h (Join [sourcePath, commandString]) = .ok resolved)
    (hent : entryAt h resolved = some n) (hreg : n.kind = .regular)
    (hcall : ParseCommandAndAddExecutionPermission h commandString sourcePath = .ok (h2, true)) :
    ∃ k, lookup h resolved = .ok (k, n) ∧
      h2 = h.setNode k { n with perm := 493 } ∧
      h2.nodes k = some ⟨.regular, 493, n.uid, n.gid, n.content⟩ ∧
      entryAt h2 resolved = some { n with perm := 493 } ∧
      (∀ q, q ≠ k → h2.nodes q = h.nodes q) := by
  rw [ParseCommand_of_Abs h commandString sourcePath resolved hres] at hcall
  by_cases hf : FileExists h resolved = true
  · obtain ⟨k, m, hl, _⟩ := (FileExists_true_iff h resolved).mp hf
    have hm := entryAt_of_lookup h resolved k m hl
    rw [hent] at hm
    cases hm
    simp only [hf, ↓reduceIte, Except.ok.injEq] at hcall
    by_cases ho : h.euid = 0 ∨ h.euid = n.uid
    · rw [AddPermission_owner h resolved 493 k n hl ho, chmodBits_0755] at hcall
      have h2eq : h2 = h.setNode k { n with perm := 493 } := by
        have := congrArg Prod.fst hcall
        exact this.symm
      subst h2eq
      refine ⟨k, hl, rfl, by simp [Host.setNode, hreg], entryAt_setNode h resolved k n _ hl rfl, ?_⟩
      intro q hq
      simp [Host.setNode, hq]
    · have ho2 : h.euid ≠ 0 ∧ h.euid ≠ n.uid := by
        constructor
        · intro h0; exact ho (Or.inl h0)
        · intro h1; exact ho (Or.inr h1)
      rw [AddPermission_not_owner h resolved 493 k n hl ho2] at hcall
      simp at hcall
  · simp [hf] at hcall

/-- C9, concrete instance on the example host: `/app/run.sh` had mode 0644; after
the call that returns true it has mode 0755 and `/etc/passwd` is as before. -/
theorem ParseCommand_replaces_mode_witness :
    ∃ k, lookup sampleHost "/app/run.sh" = .ok (k, ⟨.regular, 420, 1000, 1000, "echo hi"⟩) ∧
      (AddPermission sampleHost "/app/run.sh" 493).1
        = sampleHost.setNode k ⟨.regular, 493, 1000, 1000, "echo hi"⟩ ∧
      (AddPermission sampleHost "/app/run.sh" 493).1.nodes k
        = some ⟨.regular, 493, 1000, 1000, "echo hi"⟩ ∧
      entryAt (AddPermission sampleHost "/app/run.sh" 493).1 "/app/run.sh"
        = some ⟨.regular, 493, 1000, 1000, "echo hi"⟩ ∧
      (∀ q, q ≠ k → (AddPermission sampleHost "/app/run.sh" 493).1.nodes q = sampleHost.nodes q) :=
  ParseCommand_replaces_mode sampleHost (AddPermission sampleHost "/app/run.sh" 493).1
    "run.sh" "/app" "/app/run.sh" ⟨.regular, 420, 1000, 1000, "echo hi"⟩ rfl (by decide) rfl rfl


/-! ## `ioutil.WriteFile` -/

theorem step_congr (h h2 : Host) (hn : h2.nodes = h.nodes) (he : h2.euid = h.euid)
    (hg : h2.egid = h.egid) (hs : h2.groups = h.groups) (cur : List String) (c : String) :
    step h2 cur c = step h cur c := by
  have hp : ∀ d, permits h2 d 1 = permits h d 1 := by
    intro d
    simp [permits, classShift, inGroup, he, hg, hs]
  unfold step
  rw [hn]
  cases h.nodes cur with
  | none => rfl
  | some d => simp only [hp]

theorem walk_congr (h h2 : Host) (hn : h2.nodes = h.nodes) (he : h2.euid = h.euid)
    (hg : h2.egid = h.egid) (hs : h2.groups = h.groups) (cs : List String) :
    ∀ cur, walk h2 cur cs = walk h cur cs := by
  induction cs with
  | nil => intro cur; rfl
  | cons c cs ih =>
    intro cur
    unfold walk
    rw [step_congr h h2 hn he hg hs cur c]
    cases step h cur c with
    | error e => rfl
    | ok next => exact ih next

/-- Path lookup depends on the entries, the working directory and the credentials
only. -/
theorem lookup_congr (h h2 : Host) (hn : h2.nodes = h.nodes) (hc : h2.cwd = h.cwd)
    (he : h2.euid = h.euid) (hg : h2.egid = h.egid) (hs : h2.groups = h.groups)
    (path : String) : lookup h2 path = lookup h path := by
  unfold lookup
  have hstart : startDir h2 path = startDir h path := by simp [startDir, hc]
  rw [hstart, hn, walk_congr h h2 hn he hg hs]

theorem entryAt_congr (h h2 : Host) (hn : h2.nodes = h.nodes) (hc : h2.cwd = h.cwd)
    (hg : h2.egid = h.egid) (hs : h2.groups = h.groups) (path : String) :
    entryAt h2 path = entryAt h path := by
  unfold entryAt
  rw [lookup_congr h.privileged h2.privileged hn hc rfl hg hs]

theorem lookup_Println (h : Host) (line path : String) :
    lookup (Println h line) path = lookup h path :=
  lookup_congr h (Println h line) rfl rfl rfl rfl rfl path

theorem entryAt_Println (h : Host) (line path : String) :
    entryAt (Println h line) path = entryAt h path :=
  entryAt_congr h (Println h line) rfl rfl rfl rfl path

theorem lookup_withFree (h : Host) (room : Nat) (path : String) :
    lookup (h.withFree room) path = lookup h path :=
  lookup_congr h (h.withFree room) rfl rfl rfl rfl rfl path

theorem step_error_cases (h : Host) (cur : List String) (c : String) (e : Errno)
    (hs : step h cur c = .error e) : e = .ENOENT ∨ e = .ENOTDIR ∨ e = .EACCES := by
  unfold step at hs
  cases hcur : h.nodes cur with
  | none =>
    simp only [hcur, Except.error.injEq] at hs
    exact Or.inl hs.symm
  | some d =>
    simp only [hcur] at hs
    by_cases hdir : d.kind = .directory
    · simp only [hdir, ne_eq, not_true_eq_false, ↓reduceIte] at hs
      by_cases hc : c = ""
      · simp [hc] at hs
      · simp only [hc, ↓reduceIte] at hs
        by_cases hp : permits h d 1 = true
        · simp only [hp, Bool.not_true, Bool.false_eq_true, ↓reduceIte] at hs
          by_cases h1 : c = "."
          · simp [h1] at hs
          · by_cases h2 : c = ".."
            · simp [h1, h2] at hs
            · simp only [h1, h2, ↓reduceIte] at hs
              cases hn : h.nodes (cur ++ [c]) with
              | none =>
                simp only [hn, Except.error.injEq] at hs
                exact Or.inl hs.symm
              | some x => simp [hn] at hs
        · simp only [hp, Bool.not_false, ↓reduceIte, Except.error.injEq] at hs
          exact Or.inr (Or.inr hs.symm)
    · simp only [hdir, ne_eq, not_false_eq_true, ↓reduceIte, Except.error.injEq] at hs
      exact Or.inr (Or.inl hs.symm)

theorem walk_error_cases (h : Host) (cs : List String) :
    ∀ cur e, walk h cur cs = .error e → e = .ENOENT ∨ e = .ENOTDIR ∨ e = .EACCES := by
  induction cs with
  | nil => intro cur e hw; simp [walk] at hw
  | cons c cs ih =>
    intro cur e hw
    unfold walk at hw
    cases hs : step h cur c with
    | error e2 =>
      simp only [hs, Except.error.injEq] at hw
      subst hw
      exact step_error_cases h cur c e2 hs
    | ok next =>
      rw [hs] at hw
      exact ih next e hw

theorem not_ENOSPC_of_lookup_error (e : Errno)
    (he : e = .ENOENT ∨ e = .ENOTDIR ∨ e = .EACCES) : e ≠ .ENOSPC := by
  rcases he with rfl | rfl | rfl <;> decide

theorem lookup_split (h : Host) (path : String) (hp : path ≠ "") :
    lookup h path =
      match walk h (startDir h path) (components path).dropLast with
      | .error e => .error e
      | .ok dir =>
        match step h dir ((components path).getLastD "") with
        | .error e => .error e
        | .ok k =>
          match h.nodes k with
          | none => .error .ENOENT
          | some n => .ok (k, n) := by
  unfold lookup
  simp only [hp, ↓reduceIte]
  conv_lhs => rw [components_split path, walk_append]
  cases walk h (startDir h path) (components path).dropLast <;> rfl

theorem step_not_found (h : Host) (cur : List String) (c : String) (d : Inode)
    (hs : step h cur c = .error .ENOENT) (hd : h.nodes cur = some d)
    (hdir : d.kind = .directory) :
    c ≠ "" ∧ permits h d 1 = true ∧ c ≠ "." ∧ c ≠ ".." ∧ h.nodes (cur ++ [c]) = none := by
  unfold step at hs
  simp only [hd, hdir, ne_eq, not_true_eq_false, ↓reduceIte] at hs
  by_cases hc : c = ""
  · simp [hc] at hs
  · simp only [hc, ↓reduceIte] at hs
    by_cases hp : permits h d 1 = true
    · simp only [hp, Bool.not_true, Bool.false_eq_true, ↓reduceIte] at hs
      by_cases h1 : c = "."
      · simp [h1] at hs
      · by_cases h2 : c = ".."
        · simp [h1, h2] at hs
        · simp only [h1, h2, ↓reduceIte] at hs
          cases hn : h.nodes (cur ++ [c]) with
          | none => exact ⟨hc, hp, h1, h2, rfl⟩
          | some x => simp [hn] at hs
    · simp [hp] at hs

theorem step_found (h : Host) (cur : List String) (c : String) (d x : Inode)
    (hd : h.nodes cur = some d) (hdir : d.kind = .directory) (hc : c ≠ "")
    (hp : permits h d 1 = true) (h1 : c ≠ ".") (h2 : c ≠ "..")
    (hx : h.nodes (cur ++ [c]) = some x) : step h cur c = .ok (cur ++ [c]) := by
  unfold step
  simp [hd, hdir, hc, hp, h1, h2, hx]

/-- The two outcomes of writing the data into the opened file: all of them are
stored, or only the part that fits and the error is `ENOSPC`. -/
theorem store_cases (h : Host) (k : List String) (n : Inode) (data : String) (room : Nat) :
    (data.length ≤ room ∧ store h k n data room =
      ((h.setNode k { n with content := data }).withFree (room - data.length), none)) ∨
    (room < data.length ∧ store h k n data room =
      ((h.setNode k { n with content := String.mk (data.data.take room) }).withFree 0,
        some .ENOSPC)) := by
  unfold store
  by_cases hfit : data.length ≤ room
  · left; exact ⟨hfit, by simp [hfit]⟩
  · right; exact ⟨by omega, by simp [hfit]⟩

theorem openTrunc_cases (h : Host) (k : List String) (n : Inode) (data : String) :
    (∃ e, e ≠ .ENOSPC ∧ openTrunc h k n data = (h, some e)) ∨
    (n.kind = .regular ∧
      openTrunc h k n data = store h k n data (h.free + n.content.length)) ∨
    (n.kind = .device ∧ openTrunc h k n data = (h, none)) := by
  unfold openTrunc
  cases hk : n.kind with
  | directory => left; exact ⟨.EISDIR, by decide, rfl⟩
  | socket => left; exact ⟨.ENODEVICE, by decide, rfl⟩
  | device =>
    by_cases hp : permits h n 2 = true
    · right; right; simp [hp]
    · left; exact ⟨.EACCES, by decide, by simp [hp]⟩
  | regular =>
    by_cases hp : permits h n 2 = true
    · right; left; simp [hp]
    · left; exact ⟨.EACCES, by decide, by simp [hp]⟩

theorem create_cases (h : Host) (dir : List String) (c data : String) (bits : Nat) :
    (∃ e, e ≠ .ENOSPC ∧ create h dir c data bits = (h, some e)) ∨
    (∃ d, h.nodes dir = some d ∧ d.kind = .directory ∧
      create h dir c data bits =
        store h (dir ++ [c]) ⟨.regular, bits - (bits &&& h.umask), h.euid, h.egid, ""⟩ data
          h.free) := by
  unfold create
  cases hd : h.nodes dir with
  | none => left; exact ⟨.ENOENT, by decide, rfl⟩
  | some d =>
    by_cases hk : d.kind = .directory
    · by_cases hp : permits h d 2 = true
      · right; exact ⟨d, rfl, hk, by simp [hk, hp]⟩
      · left; exact ⟨.EACCES, by decide, by simp [hk, hp]⟩
    · left; exact ⟨.ENOTDIR, by decide, by simp [hk]⟩

/-- The outcomes of `ioutil.WriteFile`: the open fails and the host is as it was; or
the path names a regular file, which is truncated and written; or the path names
the device and nothing changes; or a regular file is created in the directory that
the path's parent names, and written. -/
theorem WriteFile_cases (h : Host) (name data : String) (mode : Nat) :
    (∃ e, e ≠ .ENOSPC ∧ WriteFile h name data mode = (h, some e)) ∨
    (∃ k n, lookup h name = .ok (k, n) ∧ n.kind = .regular ∧
      WriteFile h name data mode = store h k n data (h.free + n.content.length)) ∨
    (∃ k n, lookup h name = .ok (k, n) ∧ n.kind = .device ∧
      WriteFile h name data mode = (h, none)) ∨
    (∃ dir d, name ≠ "" ∧
      walk h (startDir h name) (components name).dropLast = .ok dir ∧
      step h dir ((components name).getLastD "") = .error .ENOENT ∧
      h.nodes dir = some d ∧ d.kind = .directory ∧
      WriteFile h name data mode =
        store h (dir ++ [(components name).getLastD ""])
          ⟨.regular, syscallMode mode - (syscallMode mode &&& h.umask), h.euid, h.egid, ""⟩
          data h.free) := by
  by_cases hp : name = ""
  · left; exact ⟨.ENOENT, by decide, by simp [WriteFile, hp]⟩
  · rw [lookup_split h name hp]
    unfold WriteFile
    simp only [hp, ↓reduceIte]
    cases hw : walk h (startDir h name) (components name).dropLast with
    | error e =>
      left
      exact ⟨e, not_ENOSPC_of_lookup_error e (walk_error_cases h _ _ e hw), rfl⟩
    | ok dir =>
      simp only []
      cases hs : step h dir ((components name).getLastD "") with
      | ok k =>
        simp only []
        cases hn : h.nodes k with
        | none => left; exact ⟨.ENOENT, by decide, rfl⟩
        | some n =>
          simp only []
          rcases openTrunc_cases h k n data with hf | ⟨hk, he⟩ | ⟨hk, he⟩
          · left; exact hf
          · right; left; exact ⟨k, n, rfl, hk, he⟩
          · right; right; left; exact ⟨k, n, rfl, hk, he⟩
      | error e =>
        have hne := not_ENOSPC_of_lookup_error e (step_error_cases h dir _ e hs)
        cases e with
        | ENOENT =>
          simp only []
          rcases create_cases h dir ((components name).getLastD "") data (syscallMode mode)
            with hf | ⟨d, hd, hk, he⟩
          · left; exact hf
          · right; right; right
            exact ⟨dir, d, hp, rfl, hs, hd, hk, he⟩
        | ENOTDIR => left; exact ⟨.ENOTDIR, hne, rfl⟩
        | EACCES => left; exact ⟨.EACCES, hne, rfl⟩
        | EPERM => left; exact ⟨.EPERM, hne, rfl⟩
        | EISDIR => left; exact ⟨.EISDIR, hne, rfl⟩
        | ENODEVICE => left; exact ⟨.ENODEVICE, hne, rfl⟩
        | ENOSPC => exact absurd rfl hne

/-- After the data of an existing non-directory entry are replaced, the path names
the new entry. -/
theorem lookup_stored (h : Host) (path : String) (k : List String) (n n2 : Inode)
    (room : Nat) (hl : lookup h path = .ok (k, n)) (hk : n2.kind = n.kind)
    (hnd : n.kind ≠ .directory) :
    lookup ((h.setNode k n2).withFree room) path = .ok (k, n2) := by
  rw [lookup_withFree]
  exact lookup_setNode_nondir h path k n n2 hl hk hnd

/-- A path whose last name is missing in an existing directory names the entry that
is then stored under that name. -/
theorem lookup_created (h : Host) (name : String) (dir : List String) (d new : Inode)
    (room : Nat) (hp : name ≠ "")
    (hw : walk h (startDir h name) (components name).dropLast = .ok dir)
    (hs : step h dir ((components name).getLastD "") = .error .ENOENT)
    (hd : h.nodes dir = some d) (hk : d.kind = .directory) :
    lookup h name = .error .ENOENT ∧
    h.nodes (dir ++ [(components name).getLastD ""]) = none ∧
    lookup ((h.setNode (dir ++ [(components name).getLastD ""]) new).withFree room) name
      = .ok (dir ++ [(components name).getLastD ""], new) := by
  obtain ⟨hc, hperm, h1, h2, hnone⟩ := step_not_found h dir _ d hs hd hk
  refine ⟨?_, hnone, ?_⟩
  · rw [lookup_split h name hp, hw]
    simp only [hs]
  · rw [lookup_withFree, lookup_split _ name hp]
    have hstart : startDir (h.setNode (dir ++ [(components name).getLastD ""]) new) name
        = startDir h name := rfl
    have hkeep : keepsDirs h (h.setNode (dir ++ [(components name).getLastD ""]) new) := by
      apply keepsDirs_setNode_nondir
      intro n hn
      rw [hnone] at hn
      cases hn
    rw [hstart, walk_mono h _ hkeep _ _ _ hw]
    have hd2 : (h.setNode (dir ++ [(components name).getLastD ""]) new).nodes dir = some d := by
      simp [Host.setNode, hd]
    have hx : (h.setNode (dir ++ [(components name).getLastD ""]) new).nodes
        (dir ++ [(components name).getLastD ""]) = some new := by
      simp [Host.setNode]
    have hperm2 : permits (h.setNode (dir ++ [(components name).getLastD ""]) new) d 1 = true :=
      hperm
    simp only [step_found _ dir _ d new hd2 hk hc hperm2 h1 h2 hx, hx]

theorem store_stdout (h : Host) (k : List String) (n : Inode) (data : String) (room : Nat) :
    (store h k n data room).1.stdout = h.stdout := by
  rcases store_cases h k n data room with ⟨_, he⟩ | ⟨_, he⟩ <;> rw [he] <;> rfl

theorem WriteFile_frame (h : Host) (name data : String) (mode : Nat) :
    (WriteFile h name data mode).1.stdout = h.stdout := by
  rcases WriteFile_cases h name data mode with ⟨e, _, he⟩ | ⟨k, n, _, _, he⟩ |
    ⟨k, n, _, _, he⟩ | ⟨dir, d, _, _, _, _, _, he⟩
  · rw [he]
  · rw [he, store_stdout]
  · rw [he]
  · rw [he, store_stdout]

theorem ReadFile_regular (h : Host) (path : String) (k : List String) (n : Inode)
    (hl : lookup h path = .ok (k, n)) (hk : n.kind = .regular) (hp : permits h n 4 = true) :
    ReadFile h path = .ok n.content := by
  simp [ReadFile, hl, hk, hp]

/-! ## `WriteScript` -/

/-- C7 (as amended).  When the underlying write succeeds and the path does not name
a device, the entry at the path after `WriteScript` is a regular file whose data
are exactly the given content, and a caller whom the mode of the file lets read
gets exactly that content from a read.  When no entry existed at the path, the
file is created with the mode 0755 less the bits of the umask and belongs to the
caller; under a umask that removes none of these bits the mode is 0755, which
lets owner, group and others execute. -/
theorem WriteScript_stores_content (h : Host) (path content : String)
    (hok : (WriteFile (Println h ("Writing output script to '" ++ path ++ "'")) path content
      493).2 = none)
    (hdev : ∀ n, entryAt h path = some n → n.kind ≠ .device) :
    ∃ n2, entryAt (WriteScript h path content) path = some n2 ∧
      n2.kind = .regular ∧ n2.content = content ∧
      (permits h n2 4 = true → ReadFile (WriteScript h path content) path = .ok content) ∧
      (entryAt h path = none →
        n2.perm = 493 - (493 &&& h.umask) ∧ n2.uid = h.euid ∧
        (493 &&& h.umask = 0 → n2.perm = 493 ∧ executableByAll n2.perm = true)) := by
  unfold WriteScript
  generalize hP : Println h ("Writing output script to '" ++ path ++ "'") = h1 at hok ⊢
  have hent : ∀ p, entryAt h1 p = entryAt h p := by
    intro p; rw [← hP]; exact entryAt_Println h _ p
  have hperm : ∀ (m : Host) (n : Inode), m.euid = h.euid → m.egid = h.egid →
      m.groups = h.groups → permits m n 4 = permits h n 4 := by
    intro m n e1 e2 e3
    simp [permits, classShift, inGroup, e1, e2, e3]
  have hcred : h1.euid = h.euid ∧ h1.egid = h.egid ∧ h1.groups = h.groups ∧ h1.umask = h.umask := by
    rw [← hP]; exact ⟨rfl, rfl, rfl, rfl⟩
  rcases WriteFile_cases h1 path content 493 with ⟨e, _, he⟩ | ⟨k, n, hl, hk, he⟩ |
    ⟨k, n, hl, hk, _⟩ | ⟨dir, d, hp, hw, hs, hd, hk, he⟩
  · rw [he] at hok
    cases hok
  · rcases store_cases h1 k n content (h1.free + n.content.length) with ⟨_, hst⟩ | ⟨_, hst⟩
    · rw [he, hst]
      have hnd : n.kind ≠ .directory := by rw [hk]; decide
      have hl2 := lookup_stored h1 path k n { n with content := content }
        (h1.free + n.content.length - content.length) hl rfl hnd
      refine ⟨{ n with content := content }, entryAt_of_lookup _ path k _ hl2, hk, rfl, ?_, ?_⟩
      · intro hr
        have hr2 : permits ((h1.setNode k { n with content := content }).withFree
            (h1.free + n.content.length - content.length))
            { n with content := content } 4 = true :=
          (hperm ((h1.setNode _ _).withFree _) _ hcred.1 hcred.2.1 hcred.2.2.1).trans hr
        exact ReadFile_regular _ path k _ hl2 hk hr2
      · intro hnone
        rw [← hent path, entryAt_of_lookup h1 path k n hl] at hnone
        cases hnone
    · rw [he, hst] at hok
      cases hok
  · have hn : entryAt h path = some n := by
      rw [← hent path]; exact entryAt_of_lookup h1 path k n hl
    exact absurd hk (hdev n hn)
  · have hsm : syscallMode 493 = 493 := by decide
    rw [hsm] at he
    rcases store_cases h1 (dir ++ [(components path).getLastD ""])
      ⟨.regular, 493 - (493 &&& h1.umask), h1.euid, h1.egid, ""⟩ content h1.free
      with ⟨_, hst⟩ | ⟨_, hst⟩
    · rw [he, hst]
      obtain ⟨_, _, hl2⟩ := lookup_created h1 path dir d
        ⟨.regular, 493 - (493 &&& h1.umask), h1.euid, h1.egid, content⟩
        (h1.free - content.length) hp hw hs hd hk
      refine ⟨_, entryAt_of_lookup _ path _ _ hl2, rfl, rfl, ?_, ?_⟩
      · intro hr
        have hr2 : permits ((h1.setNode (dir ++ [(components path).getLastD ""])
            ⟨.regular, 493 - (493 &&& h1.umask), h1.euid, h1.egid, content⟩).withFree
            (h1.free - content.length))
            ⟨.regular, 493 - (493 &&& h1.umask), h1.euid, h1.egid, content⟩ 4 = true :=
          (hperm ((h1.setNode _ _).withFree _) _ hcred.1 hcred.2.1 hcred.2.2.1).trans hr
        exact ReadFile_regular _ path _ _ hl2 rfl hr2
      · intro _
        simp only [hcred.1, hcred.2.2.2, true_and]
        intro hz
        rw [hz]
        exact ⟨rfl, by decide⟩
    · rw [he, hst] at hok
      cases hok

/-- C7, concrete instance of the amended statement on the example host (umask 022):
`WriteScript` creates `/app/start.sh` with mode 0755, a read returns the content. -/
theorem WriteScript_stores_content_witness :
    (WriteFile (Println sampleHost ("Writing output script to '" ++ "/app/start.sh" ++ "'"))
      "/app/start.sh" "exec app" 493).2 = none ∧
    ∃ n2, entryAt (WriteScript sampleHost "/app/start.sh" "exec app") "/app/start.sh" = some n2 ∧
      n2.kind = .regular ∧ n2.content = "exec app" ∧
      (permits sampleHost n2 4 = true →
        ReadFile (WriteScript sampleHost "/app/start.sh" "exec app") "/app/start.sh"
          = .ok "exec app") ∧
      (entryAt sampleHost "/app/start.sh" = none →
        n2.perm = 493 - (493 &&& sampleHost.umask) ∧ n2.uid = sampleHost.euid ∧
        (493 &&& sampleHost.umask = 0 → n2.perm = 493 ∧ executableByAll n2.perm = true)) :=
  ⟨rfl, WriteScript_stores_content sampleHost "/app/start.sh" "exec app" rfl
    (by
      intro n hn
      have hnone : entryAt sampleHost "/app/start.sh" = none := by decide
      rw [hnone] at hn
      cases hn)⟩

/-- C7, counterexample.  (1) `/opt` does not exist: after
`WriteScript("/opt/start.sh", ...)` there is no file to read.  (2) `/app/run.sh`
existed with mode 0644: after `WriteScript` it holds the new content and still has
mode 0644, which lets nobody execute it.  (3) The null device accepts the write, and
a read of it returns nothing.  (4) Under the umask 077 the created file has mode
0700, not 0755. -/
theorem WriteScript_content_or_mode_missing :
    (entryAt (WriteScript sampleHost "/opt/start.sh" "exec app") "/opt/start.sh" = none ∧
      ReadFile (WriteScript sampleHost "/opt/start.sh" "exec app") "/opt/start.sh"
        = .error .ENOENT) ∧
    (entryAt (WriteScript sampleHost "/app/run.sh" "exec app") "/app/run.sh"
        = some ⟨.regular, 420, 1000, 1000, "exec app"⟩ ∧
      executableByAny 420 = false) ∧
    ReadFile (WriteScript sampleHost "/dev/null" "exec app") "/dev/null" = .ok "" ∧
    entryAt (WriteScript strictHost "/app/start.sh" "exec app") "/app/start.sh"
      = some ⟨.regular, 448, 1000, 1000, "exec app"⟩ :=
  ⟨⟨by decide, rfl⟩, ⟨by decide, by decide⟩, rfl, by decide⟩

theorem take_shorter (data : String) (room : Nat) (hroom : room < data.length) :
    (String.mk (data.data.take room)).length < data.length ∧
    (String.mk (data.data.take room)).data
      = data.data.take (String.mk (data.data.take room)).length := by
  have hlen : (String.mk (data.data.take room)).length = room := by
    have hd : data.data.length = data.length := rfl
    show (data.data.take room).length = room
    rw [List.length_take]
    omega
  rw [hlen]
  exact ⟨hroom, rfl⟩

theorem setNode_at (h : Host) (k : List String) (n : Inode) (room : Nat) :
    ((h.setNode k n).withFree room).nodes k = some n := by
  simp [Host.withFree, Host.setNode]

theorem setNode_frame (h : Host) (k : List String) (n : Inode) (room : Nat)
    (q : List String) (hq : q ≠ k) : ((h.setNode k n).withFree room).nodes q = h.nodes q := by
  simp [Host.withFree, Host.setNode, hq]

/-- C8 (as amended).  `WriteScript` is a total function from hosts to hosts: what it
returns is the host the write leaves, whatever error the write reports, so no
panic value and no error reaches the caller.  In every case standard output gains
exactly the one line naming the destination.  When the write fails because the
file cannot be opened, every entry is as it was.  When it fails with `ENOSPC` after
the file was created or truncated, the path names a regular file that holds only a
shorter beginning of the content, and every other entry is as it was. -/
theorem WriteScript_prints_and_drops_error (h : Host) (path content : String) :
    (WriteScript h path content).stdout
      = h.stdout ++ ["Writing output script to '" ++ path ++ "'"] ∧
    WriteScript h path content
      = (WriteFile (Println h ("Writing output script to '" ++ path ++ "'")) path content
          493).1 ∧
    (∀ e, (WriteFile (Println h ("Writing output script to '" ++ path ++ "'")) path content
        493).2 = some e → e ≠ .ENOSPC →
      WriteScript h path content = Println h ("Writing output script to '" ++ path ++ "'") ∧
      (WriteScript h path content).nodes = h.nodes) ∧
    ((WriteFile (Println h ("Writing output script to '" ++ path ++ "'")) path content 493).2
        = some .ENOSPC →
      ∃ k n2, (WriteScript h path content).nodes k = some n2 ∧
        entryAt (WriteScript h path content) path = some n2 ∧ n2.kind = .regular ∧
        n2.content.length < content.length ∧
        n2.content.data = content.data.take n2.content.length ∧
        (∀ q, q ≠ k → (WriteScript h path content).nodes q = h.nodes q)) := by
  unfold WriteScript
  refine ⟨?_, rfl, ?_, ?_⟩
  · rw [WriteFile_frame]
    rfl
  · intro e hf hne
    rcases WriteFile_cases (Println h ("Writing output script to '" ++ path ++ "'")) path content
      493 with ⟨e2, _, he⟩ | ⟨k, n, _, _, he⟩ | ⟨k, n, _, _, he⟩ | ⟨dir, d, _, _, _, _, _, he⟩
    · rw [he]
      exact ⟨rfl, rfl⟩
    · rcases store_cases (Println h ("Writing output script to '" ++ path ++ "'")) k n content
        ((Println h ("Writing output script to '" ++ path ++ "'")).free + n.content.length)
        with ⟨_, hst⟩ | ⟨_, hst⟩
      · rw [he, hst] at hf; cases hf
      · rw [he, hst] at hf
        cases hf
        exact absurd rfl hne
    · rw [he] at hf; cases hf
    · rcases store_cases (Println h ("Writing output script to '" ++ path ++ "'"))
        (dir ++ [(components path).getLastD ""])
        ⟨.regular, syscallMode 493 - (syscallMode 493 &&&
          (Println h ("Writing output script to '" ++ path ++ "'")).umask),
          (Println h ("Writing output script to '" ++ path ++ "'")).euid,
          (Println h ("Writing output script to '" ++ path ++ "'")).egid, ""⟩ content
        (Println h ("Writing output script to '" ++ path ++ "'")).free
        with ⟨_, hst⟩ | ⟨_, hst⟩
      · rw [he, hst] at hf; cases hf
      · rw [he, hst] at hf
        cases hf
        exact absurd rfl hne
  · intro hf
    generalize hP : Println h ("Writing output script to '" ++ path ++ "'") = h1 at hf ⊢
    have hnodes : h1.nodes = h.nodes := by rw [← hP]; rfl
    rcases WriteFile_cases h1 path content 493 with ⟨e2, hne, he⟩ | ⟨k, n, hl, hk, he⟩ |
      ⟨k, n, _, _, he⟩ | ⟨dir, d, hp, hw, hs, hd, hk, he⟩
    · rw [he] at hf
      cases hf
      exact absurd rfl hne
    · rcases store_cases h1 k n content (h1.free + n.content.length) with ⟨_, hst⟩ | ⟨hroom, hst⟩
      · rw [he, hst] at hf; cases hf
      · rw [he, hst]
        have hnd : n.kind ≠ .directory := by rw [hk]; decide
        have hl2 := lookup_stored h1 path k n
          { n with content := String.mk (content.data.take (h1.free + n.content.length)) } 0
          hl rfl hnd
        obtain ⟨hlt, hpre⟩ := take_shorter content _ hroom
        refine ⟨k, _, setNode_at _ _ _ _, entryAt_of_lookup _ path k _ hl2, hk, hlt, hpre, ?_⟩
        intro q hq
        rw [setNode_frame _ _ _ _ q hq, hnodes]
    · rw [he] at hf; cases hf
    · rcases store_cases h1 (dir ++ [(components path).getLastD ""])
        ⟨.regular, syscallMode 493 - (syscallMode 493 &&& h1.umask), h1.euid, h1.egid, ""⟩
        content h1.free with ⟨_, hst⟩ | ⟨hroom, hst⟩
      · rw [he, hst] at hf; cases hf
      · rw [he, hst]
        obtain ⟨_, _, hl2⟩ := lookup_created h1 path dir d
          ⟨.regular, syscallMode 493 - (syscallMode 493 &&& h1.umask), h1.euid, h1.egid,
            String.mk (content.data.take h1.free)⟩ 0 hp hw hs hd hk
        obtain ⟨hlt, hpre⟩ := take_shorter content _ hroom
        refine ⟨dir ++ [(components path).getLastD ""], _, setNode_at _ _ _ _,
          entryAt_of_lookup _ path _ _ hl2, rfl, hlt, hpre, ?_⟩
        intro q hq
        rw [setNode_frame _ _ _ _ q hq, hnodes]

/-- C8, concrete instances of the amended statement.  On the example host `/opt`
does not exist, the write of `/opt/start.sh` fails with "not found", and
`WriteScript` has only printed its line.  On the host without room the write of
`/app/run.sh` fails with `ENOSPC`, and the file is left with a shorter beginning of
the content. -/
theorem WriteScript_prints_and_drops_error_witness :
    ((WriteFile (Println sampleHost ("Writing output script to '" ++ "/opt/start.sh" ++ "'"))
        "/opt/start.sh" "exec app" 493).2 = some .ENOENT ∧
      (WriteScript sampleHost "/opt/start.sh" "exec app").stdout
        = ["Writing output script to '/opt/start.sh'"] ∧
      (WriteScript sampleHost "/opt/start.sh" "exec app").nodes = sampleHost.nodes) ∧
    ((WriteFile (Println fullHost ("Writing output script to '" ++ "/app/run.sh" ++ "'"))
        "/app/run.sh" "exec app --port 80" 493).2 = some .ENOSPC ∧
      ∃ k n2, (WriteScript fullHost "/app/run.sh" "exec app --port 80").nodes k = some n2 ∧
        entryAt (WriteScript fullHost "/app/run.sh" "exec app --port 80") "/app/run.sh"
          = some n2 ∧ n2.kind = .regular ∧
        n2.content.length < "exec app --port 80".length ∧
        n2.content.data = "exec app --port 80".data.take n2.content.length ∧
        (∀ q, q ≠ k →
          (WriteScript fullHost "/app/run.sh" "exec app --port 80").nodes q
            = fullHost.nodes q)) :=
  ⟨⟨rfl, (WriteScript_prints_and_drops_error sampleHost "/opt/start.sh" "exec app").1,
      ((WriteScript_prints_and_drops_error sampleHost "/opt/start.sh" "exec app").2.2.1
        .ENOENT rfl (by decide)).2⟩,
    rfl,
    (WriteScript_prints_and_drops_error fullHost "/app/run.sh" "exec app --port 80").2.2.2 rfl⟩

/-- C8, counterexample to "when the write fails a previously existing filesystem
state is what the caller is left with".  On the host without room the write fails
with `ENOSPC` after the file was opened.  `/app/run.sh` held `echo hi` before the
call and holds `exec ap` after it, neither the old script nor the new one; and
`/app/start.sh`, which did not exist, exists empty after the call.  In both cases
`WriteScript` returns as always. -/
theorem WriteScript_failed_write_changes_file :
    ((WriteFile (Println fullHost ("Writing output script to '" ++ "/app/run.sh" ++ "'"))
        "/app/run.sh" "exec app --port 80" 493).2 = some .ENOSPC ∧
      entryAt fullHost "/app/run.sh" = some ⟨.regular, 420, 1000, 1000, "echo hi"⟩ ∧
      entryAt (WriteScript fullHost "/app/run.sh" "exec app --port 80") "/app/run.sh"
        = some ⟨.regular, 420, 1000, 1000, "exec ap"⟩) ∧
    ((WriteFile (Println fullHost ("Writing output script to '" ++ "/app/start.sh" ++ "'"))
        "/app/start.sh" "exec app" 493).2 = some .ENOSPC ∧
      entryAt fullHost "/app/start.sh" = none ∧
      entryAt (WriteScript fullHost "/app/start.sh" "exec app") "/app/start.sh"
        = some ⟨.regular, 493, 1000, 1000, ""⟩) :=
  ⟨⟨rfl, by decide, by decide⟩, rfl, by decide, by decide⟩

/-! ## Components of joined and of cleaned paths -/

theorem splitSlash_append (a b : List Char) :
    splitSlash (a ++ '/' :: b) = splitSlash a ++ splitSlash b := by
  induction a with
  | nil => simp [splitSlash]
  | cons c cs ih =>
    by_cases hc : c = '/'
    · simp [splitSlash, hc, ih]
    · simp only [List.cons_append, splitSlash, hc, ↓reduceIte]
      have ih2 : splitSlash (cs.append ('/' :: b)) = splitSlash cs ++ splitSlash b := ih
      rw [ih2]
      cases hs : splitSlash cs with
      | nil => exact absurd hs (splitSlash_ne_nil cs)
      | cons x xs => simp

theorem components_append (a b : String) :
    components (a ++ "/" ++ b) = components a ++ components b := by
  unfold components
  have : (a ++ "/" ++ b).data = a.data ++ '/' :: b.data := by
    simp [String.data_append]
  rw [this, splitSlash_append, List.map_append]

theorem splitSlash_no_slash (cs : List Char) : ∀ x ∈ splitSlash cs, '/' ∉ x := by
  induction cs with
  | nil => simp [splitSlash]
  | cons c cs ih =>
    intro x hx
    by_cases hc : c = '/'
    · simp only [splitSlash, hc, ↓reduceIte, List.mem_cons] at hx
      rcases hx with rfl | hx
      · simp
      · exact ih x hx
    · simp only [splitSlash, hc, ↓reduceIte] at hx
      cases hs : splitSlash cs with
      | nil => exact absurd hs (splitSlash_ne_nil cs)
      | cons y ys =>
        rw [hs] at hx ih
        simp only [List.mem_cons] at hx
        rcases hx with rfl | hx
        · intro hmem
          simp only [List.mem_cons] at hmem
          rcases hmem with hmem | hmem
          · exact hc hmem.symm
          · exact ih y (by simp) hmem
        · exact ih x (by simp [hx])

theorem splitSlash_of_no_slash (x : List Char) (hx : '/' ∉ x) : splitSlash x = [x] := by
  induction x with
  | nil => rfl
  | cons c cs ih =>
    simp only [List.mem_cons, not_or] at hx
    have hc : c ≠ '/' := fun h => hx.1 h.symm
    simp [splitSlash, hc, ih hx.2]

/-- A component never contains a slash. -/
theorem components_no_slash (path : String) : ∀ c ∈ components path, '/' ∉ c.data := by
  intro c hc
  unfold components at hc
  simp only [List.mem_map] at hc
  obtain ⟨x, hx, rfl⟩ := hc
  exact splitSlash_no_slash _ x hx

theorem components_of_no_slash (c : String) (hc : '/' ∉ c.data) : components c = [c] := by
  unfold components
  rw [splitSlash_of_no_slash _ hc]
  rfl

theorem components_intercalate_go (names : List String)
    (hn : ∀ c ∈ names, '/' ∉ c.data) :
    ∀ acc, components (String.intercalate.go acc "/" names) = components acc ++ names := by
  induction names with
  | nil => intro acc; simp [String.intercalate.go]
  | cons a as ih =>
    intro acc
    simp only [String.intercalate.go]
    rw [ih (fun c hc => hn c (by simp [hc])), components_append,
      components_of_no_slash a (hn a (by simp))]
    simp

theorem components_rooted (names : List String) (hn : ∀ c ∈ names, '/' ∉ c.data)
    (hne : names ≠ []) :
    components ("/" ++ "/".intercalate names) = "" :: names := by
  have h1 : "/" ++ "/".intercalate names = "" ++ "/" ++ "/".intercalate names := by
    simp
  rw [h1, components_append]
  cases names with
  | nil => exact absurd rfl hne
  | cons a as =>
    simp only [String.intercalate]
    rw [components_intercalate_go as (fun c hc => hn c (by simp [hc])),
      components_of_no_slash a (hn a (by simp))]
    rfl


/-! ## Lexical cleaning agrees with path lookup from the root -/

theorem step_result (h : Host) (cur : List String) (c : String) (r : List String)
    (hs : step h cur c = .ok r) :
    ((c = "" ∨ c = ".") → r = cur) ∧ (c = ".." → r = cur.dropLast) ∧
    ((c ≠ "" ∧ c ≠ "." ∧ c ≠ "..") → r = cur ++ [c]) := by
  unfold step at hs
  cases hcur : h.nodes cur with
  | none => simp [hcur] at hs
  | some d =>
    simp only [hcur] at hs
    by_cases hdir : d.kind = .directory
    · simp only [hdir, ne_eq, not_true_eq_false, ↓reduceIte] at hs
      by_cases hc : c = ""
      · simp only [hc, ↓reduceIte, Except.ok.injEq] at hs
        subst hc
        refine ⟨fun _ => hs.symm, fun h2 => absurd h2 (by decide), fun h3 => absurd rfl h3.1⟩
      · simp only [hc, ↓reduceIte] at hs
        by_cases hp : permits h d 1 = true
        · simp only [hp, Bool.not_true, Bool.false_eq_true, ↓reduceIte] at hs
          by_cases h1 : c = "."
          · simp only [h1, ↓reduceIte, Except.ok.injEq] at hs
            subst h1
            refine ⟨fun _ => hs.symm, fun h2 => absurd h2 (by decide), fun h3 => absurd rfl h3.2.1⟩
          · by_cases h2 : c = ".."
            · subst h2
              have hne : ¬ ((".." : String) = ".") := by decide
              simp only [hne, ↓reduceIte, Except.ok.injEq] at hs
              refine ⟨fun h3 => ?_, fun _ => hs.symm, fun h3 => absurd rfl h3.2.2⟩
              rcases h3 with h3 | h3
              · exact absurd h3 hc
              · exact absurd h3 h1
            · simp only [h1, h2, ↓reduceIte] at hs
              cases hn : h.nodes (cur ++ [c]) with
              | none => simp [hn] at hs
              | some x =>
                simp only [hn, Except.ok.injEq] at hs
                refine ⟨fun h3 => ?_, fun h3 => absurd h3 h2, fun _ => hs.symm⟩
                rcases h3 with h3 | h3
                · exact absurd h3 hc
                · exact absurd h3 h1
        · simp [hp] at hs
    · simp [hdir] at hs

theorem walk_cons_ok (h : Host) (cur : List String) (c : String) (cs : List String)
    (k : List String) (hw : walk h cur (c :: cs) = .ok k) :
    ∃ next, step h cur c = .ok next ∧ walk h next cs = .ok k := by
  unfold walk at hw
  cases hs : step h cur c with
  | error e => simp [hs] at hw
  | ok next =>
    rw [hs] at hw
    exact ⟨next, rfl, hw⟩

theorem walk_names (h : Host) (names : List String)
    (hreal : ∀ c ∈ names, c ≠ "" ∧ c ≠ "." ∧ c ≠ "..") :
    ∀ start r, walk h start names = .ok r → r = start ++ names := by
  induction names with
  | nil =>
    intro start r hw
    simp only [walk, Except.ok.injEq] at hw
    simp [hw]
  | cons c cs ih =>
    intro start r hw
    obtain ⟨next, hs, hw2⟩ := walk_cons_ok h start c cs r hw
    have hnext := (step_result h start c next hs).2.2 (hreal c (by simp))
    have := ih (fun x hx => hreal x (by simp [hx])) next r hw2
    rw [this, hnext]
    simp

theorem walk_append_ok (h : Host) (cs : List String) (c : String) (cur r : List String)
    (hw : walk h cur (cs ++ [c]) = .ok r) :
    ∃ dir, walk h cur cs = .ok dir ∧ step h dir c = .ok r := by
  rw [walk_append] at hw
  cases hd : walk h cur cs with
  | error e => simp [hd] at hw
  | ok dir =>
    rw [hd] at hw
    exact ⟨dir, rfl, hw⟩

/-- Following components from a place reached by its own names ends at the place
that `filepath.Clean` computes from the same components. -/
theorem walk_clean (h : Host) (comps : List String) :
    ∀ (stack k : List String),
      (∀ c ∈ stack, c ≠ "" ∧ c ≠ "." ∧ c ≠ "..") →
      walk h [] stack.reverse = .ok stack.reverse →
      walk h stack.reverse comps = .ok k →
      k = (comps.foldl (cleanStep true) stack).reverse ∧
      (∀ c ∈ comps.foldl (cleanStep true) stack, c ≠ "" ∧ c ≠ "." ∧ c ≠ "..") ∧
      walk h [] k = .ok k := by
  induction comps with
  | nil =>
    intro stack k hreal hreach hw
    simp only [walk, Except.ok.injEq] at hw
    subst hw
    exact ⟨rfl, hreal, hreach⟩
  | cons c cs ih =>
    intro stack k hreal hreach hw
    obtain ⟨next, hs, hw2⟩ := walk_cons_ok h _ c cs k hw
    obtain ⟨hdot, hup, hname⟩ := step_result h _ c next hs
    simp only [List.foldl_cons]
    by_cases h0 : c = "" ∨ c = "."
    · have hcl : cleanStep true stack c = stack := by simp [cleanStep, h0]
      rw [hcl]
      rw [hdot h0] at hw2
      exact ih stack k hreal hreach hw2
    · have hc0 : c ≠ "" := fun hc => h0 (Or.inl hc)
      have hc1 : c ≠ "." := fun hc => h0 (Or.inr hc)
      by_cases h2 : c = ".."
      · rw [hup h2] at hw2
        cases stack with
        | nil =>
          have hcl : cleanStep true [] c = [] := by simp [cleanStep, h0, h2]
          rw [hcl]
          exact ih [] k hreal hreach (by simpa using hw2)
        | cons top rest =>
          have htop : top ≠ ".." := (hreal top (by simp)).2.2
          have hcl : cleanStep true (top :: rest) c = rest := by
            simp [cleanStep, h0, h2, htop]
          rw [hcl]
          have hrev : (top :: rest).reverse = rest.reverse ++ [top] := by simp
          rw [hrev, List.dropLast_concat] at hw2
          rw [hrev] at hreach
          obtain ⟨dir, hdir, _⟩ := walk_append_ok h _ top [] _ hreach
          have hrest : ∀ x ∈ rest, x ≠ "" ∧ x ≠ "." ∧ x ≠ ".." :=
            fun x hx => hreal x (by simp [hx])
          have hd := walk_names h rest.reverse (fun x hx => hrest x (by simpa using hx)) [] dir hdir
          simp only [List.nil_append] at hd
          rw [hd] at hdir
          exact ih rest k hrest hdir hw2
      · have hcl : cleanStep true stack c = c :: stack := by
          simp [cleanStep, h0, h2]
        rw [hcl]
        have hnext := hname ⟨hc0, hc1, h2⟩
        have hrev : (c :: stack).reverse = stack.reverse ++ [c] := by simp
        have hreal2 : ∀ x ∈ c :: stack, x ≠ "" ∧ x ≠ "." ∧ x ≠ ".." := by
          intro x hx
          simp only [List.mem_cons] at hx
          rcases hx with rfl | hx
          · exact ⟨hc0, hc1, h2⟩
          · exact hreal x hx
        have hreach2 : walk h [] (c :: stack).reverse = .ok (c :: stack).reverse := by
          rw [hrev, walk_append, hreach]
          simp only []
          rw [hs, hnext]
        rw [hnext, ← hrev] at hw2
        exact ih (c :: stack) k hreal2 hreach2 hw2


theorem cleanStep_mem (rooted : Bool) (comps : List String) :
    ∀ (stack : List String) (x : String), x ∈ comps.foldl (cleanStep rooted) stack →
      x ∈ stack ∨ x ∈ comps ∨ x = ".." := by
  induction comps with
  | nil => intro stack x hx; exact Or.inl hx
  | cons c cs ih =>
    intro stack x hx
    simp only [List.foldl_cons] at hx
    rcases ih _ x hx with h1 | h1 | h1
    · have hstep : x ∈ stack ∨ x = c ∨ x = ".." := by
        unfold cleanStep at h1
        by_cases h0 : c = "" ∨ c = "."
        · simp only [h0, ↓reduceIte] at h1
          exact Or.inl h1
        · simp only [h0, ↓reduceIte] at h1
          by_cases h2 : c = ".."
          · simp only [h2, ↓reduceIte] at h1
            cases stack with
            | nil =>
              cases rooted
              · simp only [Bool.false_eq_true, ↓reduceIte, List.mem_singleton] at h1
                exact Or.inr (Or.inr h1)
              · simp at h1
            | cons top rest =>
              by_cases ht : top = ".."
              · simp only [ht, ↓reduceIte, List.mem_cons] at h1
                rcases h1 with h1 | h1 | h1
                · exact Or.inr (Or.inr h1)
                · exact Or.inr (Or.inr h1)
                · exact Or.inl (by simp [h1])
              · simp only [ht, ↓reduceIte] at h1
                exact Or.inl (by simp [h1])
          · simp only [h2, ↓reduceIte, List.mem_cons] at h1
            rcases h1 with h1 | h1
            · exact Or.inr (Or.inl h1)
            · exact Or.inl h1
      rcases hstep with h3 | h3 | h3
      · exact Or.inl h3
      · exact Or.inr (Or.inl (by simp [h3]))
      · exact Or.inr (Or.inr h3)
    · exact Or.inr (Or.inl (by simp [h1]))
    · exact Or.inr (Or.inr h1)

theorem step_ok_dir (h : Host) (cur : List String) (c : String) (r : List String)
    (hs : step h cur c = .ok r) : ∃ d, h.nodes cur = some d ∧ d.kind = .directory := by
  unfold step at hs
  cases hcur : h.nodes cur with
  | none => simp [hcur] at hs
  | some d =>
    simp only [hcur] at hs
    by_cases hdir : d.kind = .directory
    · exact ⟨d, rfl, hdir⟩
    · simp [hdir] at hs

theorem step_empty (h : Host) (cur : List String) (d : Inode) (hd : h.nodes cur = some d)
    (hk : d.kind = .directory) : step h cur "" = .ok cur := by
  simp [step, hd, hk]

/-- For an absolute path, cleaning keeps the entry: when lookup of the path finds an
entry, lookup of the cleaned path finds the same entry. -/
theorem lookup_Clean (h : Host) (path : String) (k : List String) (n : Inode)
    (ha : IsAbs path = true) (hl : lookup h path = .ok (k, n)) :
    lookup h (Clean path) = .ok (k, n) := by
  obtain ⟨hp, hw, hn⟩ := (lookup_ok_iff h path k n).mp hl
  have hstart : startDir h path = [] := by simp [startDir, ha]
  rw [hstart] at hw
  obtain ⟨hk, hreal, hreach⟩ := walk_clean h (components path) [] k (by simp) rfl hw
  have hroot : ∃ d, h.nodes [] = some d ∧ d.kind = .directory := by
    cases hc : components path with
    | nil => exact absurd hc (components_ne_nil path)
    | cons c cs =>
      rw [hc] at hw
      obtain ⟨next, hs, _⟩ := walk_cons_ok h [] c cs k hw
      exact step_ok_dir h [] c next hs
  obtain ⟨d, hd, hdir⟩ := hroot
  have hca : IsAbs (Clean path) = true := IsAbs_Clean path ha
  rw [lookup_ok_iff]
  refine ⟨IsAbs_ne_empty _ hca, ?_, hn⟩
  have hstart2 : startDir h (Clean path) = [] := by simp [startDir, hca]
  rw [hstart2]
  have hclean : Clean path = "/" ++ "/".intercalate k := by
    unfold Clean
    simp only [hp, ↓reduceIte, ha]
    rw [hk]
  rw [hclean]
  by_cases hne : k = []
  · subst hne
    have hc : components ("/" ++ "/".intercalate []) = ["", ""] := by decide
    rw [hc]
    simp [walk, step_empty h [] d hd hdir]
  · have hslash : ∀ c ∈ k, '/' ∉ c.data := by
      intro c hc
      rw [hk, List.mem_reverse] at hc
      rcases cleanStep_mem true (components path) [] c hc with h1 | h1 | h1
      · simp at h1
      · exact components_no_slash path c h1
      · rw [h1]; decide
    rw [components_rooted k hslash hne]
    simp only [walk, step_empty h [] d hd hdir]
    exact hreach

theorem walk_append_list (h : Host) (xs ys : List String) :
    ∀ cur dir, walk h cur xs = .ok dir → walk h cur (xs ++ ys) = walk h dir ys := by
  induction xs with
  | nil =>
    intro cur dir hw
    simp only [walk, Except.ok.injEq] at hw
    simp [hw]
  | cons x xs ih =>
    intro cur dir hw
    obtain ⟨next, hs, hw2⟩ := walk_cons_ok h cur x xs dir hw
    simp only [List.cons_append, walk, hs]
    exact ih next dir hw2

/-- For a relative path that lookup resolves, `filepath.Join` of the working
directory and the path names the same entry, provided the working directory is
the entry that its own path names. -/
theorem lookup_Join_cwd (h : Host) (path wd : String) (d : Inode) (k : List String)
    (n : Inode) (hrel : IsAbs path = false) (hwd : Getwd h = .ok wd)
    (hwf : lookup h.privileged wd = .ok (h.cwd, d)) (hl : lookup h path = .ok (k, n)) :
    lookup h.privileged (Join [wd, path]) = .ok (k, n) := by
  have hwabs : IsAbs wd = true := Getwd_IsAbs h wd hwd
  rw [Join_of_IsAbs wd path hwabs]
  have hjabs : IsAbs (wd ++ "/" ++ path) = true := by
    rw [String.append_assoc]
    exact IsAbs_append wd _ hwabs
  apply lookup_Clean _ _ _ _ hjabs
  have hlp : lookup h.privileged path = .ok (k, n) := by
    rw [lookup_privileged h path (by simp [hl]), hl]
  obtain ⟨_, hw1, _⟩ := (lookup_ok_iff _ wd _ d).mp hwf
  obtain ⟨_, hw2, hn⟩ := (lookup_ok_iff _ path k n).mp hlp
  have hs1 : startDir h.privileged wd = [] := by simp [startDir, hwabs]
  have hs2 : startDir h.privileged path = h.cwd := by
    simp [startDir, hrel, Host.privileged]
  rw [hs1] at hw1
  rw [hs2] at hw2
  rw [lookup_ok_iff]
  refine ⟨IsAbs_ne_empty _ hjabs, ?_, hn⟩
  have hs3 : startDir h.privileged (wd ++ "/" ++ path) = [] := by simp [startDir, hjabs]
  rw [hs3, components_append, walk_append_list _ _ _ _ _ hw1]
  exact hw2

/-- `GetValidatedFullPath` on an existing relative path: it returns normally, what it
returns is the absolute path made of the working directory and the input, and the
entry at that path is the entry the input names.  (The working directory has to
be the entry that its own path names.) -/
theorem GetValidatedFullPath_relative (h : Host) (filePath wd : String) (d : Inode)
    (k : List String) (n : Inode) (hrel : IsAbs filePath = false) (hwd : Getwd h = .ok wd)
    (hwf : lookup h.privileged wd = .ok (h.cwd, d)) (hl : lookup h filePath = .ok (k, n)) :
    GetValidatedFullPath h filePath = .ok (Join [wd, filePath]) ∧
    IsAbs (Join [wd, filePath]) = true ∧
    entryAt h (Join [wd, filePath]) = some n := by
  have hj := lookup_Join_cwd h filePath wd d k n hrel hwd hwf hl
  have hent : entryAt h (Join [wd, filePath]) = some n := by
    simp [entryAt, hj]
  have habs : Abs h filePath = .ok (Join [wd, filePath]) := by
    simp [Abs, hrel, hwd]
  refine ⟨?_, Abs_IsAbs h filePath _ habs, hent⟩
  unfold GetValidatedFullPath
  rw [habs]
  simp only []
  have hne : IsNotExist (errOf (Stat h (Join [wd, filePath]))) = false := by
    cases hs : Stat h (Join [wd, filePath]) with
    | ok fi => rfl
    | error e =>
      cases e with
      | ENOENT =>
        rw [Stat_error_entryAt h _ .ENOENT hs (by decide)] at hent
        cases hent
      | ENOTDIR => rfl
      | EACCES => rfl
      | EPERM => rfl
      | EISDIR => rfl
      | ENODEVICE => rfl
      | ENOSPC => rfl
  simp [hne]

/-- The relative path `run.sh` on the example host: the result is `/app/run.sh`, and
the entry there is the script the input names. -/
theorem GetValidatedFullPath_relative_example :
    GetValidatedFullPath sampleHost "run.sh" = .ok (Join ["/app", "run.sh"]) ∧
    IsAbs (Join ["/app", "run.sh"]) = true ∧
    entryAt sampleHost (Join ["/app", "run.sh"]) = some ⟨.regular, 420, 1000, 1000, "echo hi"⟩ :=
  GetValidatedFullPath_relative sampleHost "run.sh" "/app" ⟨.directory, 493, 1000, 1000, ""⟩
    ["app", "run.sh"] ⟨.regular, 420, 1000, 1000, "echo hi"⟩ rfl rfl rfl rfl


end Oryx
